import Mathlib

/-!
# Verification of the open-responses-server gateway

Shallow embedding of the gateway's request/response handling, translated from
`src/open_responses_server/api_controller.py`,
`src/open_responses_server/chat_completions_service.py` and
`src/open_responses_server/common/config.py`, together with models of the
format translator and stream reconstructor (`responses_service.py`, absent
from the visible tree) built from the specification's own description.

JSON values are embedded as `JVal`; Python dicts as ordered association
lists (`Dict`), matching Python's insertion-ordered dict semantics for the
operations the code uses (`get`, `pop`, item assignment, `in`).
-/

/-- A JSON value, the payload type of every request/response body. -/
inductive JVal : Type where
  | null : JVal
  | bool (b : Bool) : JVal
  | num (n : Int) : JVal
  | str (s : String) : JVal
  | arr (xs : List JVal) : JVal
  | obj (kvs : List (String × JVal)) : JVal
  deriving Repr

/-- A top-level JSON object / Python dict: insertion-ordered key/value list. -/
abbrev Dict := List (String × JVal)

/-- Python `==` on JSON-shaped values (structural equality). -/
def jEq : JVal → JVal → Bool
  | .null, .null => true
  | .bool a, .bool b => a == b
  | .num a, .num b => a == b
  | .str a, .str b => a == b
  | .arr [], .arr [] => true
  | .arr (x :: xs), .arr (y :: ys) => jEq x y && jEq (.arr xs) (.arr ys)
  | .obj [], .obj [] => true
  | .obj ((k, v) :: xs), .obj ((l, w) :: ys) => k == l && jEq v w && jEq (.obj xs) (.obj ys)
  | _, _ => false

/-- Python `x in s` for a collection of JSON values. -/
def jvalMem (v : JVal) (l : List JVal) : Bool := l.any (jEq v)

/-- `d.get(k)` on a dict: `some` the stored value, `none` when the key is absent. -/
def dictGet (d : Dict) (k : String) : Option JVal :=
  match d with
  | [] => none
  | p :: rest => if p.1 = k then some p.2 else dictGet rest k

/-- `d.get(k, default)`. -/
def dictGetD (d : Dict) (k : String) (dflt : JVal) : JVal := (dictGet d k).getD dflt

/-- `k in d`. -/
def hasKey (d : Dict) (k : String) : Bool := (dictGet d k).isSome

/-- `d[k] = v`: replaces in place when the key exists, otherwise appends
(Python dicts keep the original position of an updated key). -/
def dictSet (d : Dict) (k : String) (v : JVal) : Dict :=
  match d with
  | [] => [(k, v)]
  | p :: rest => if p.1 = k then (k, v) :: rest else p :: dictSet rest k v

/-- `d.pop(k, None)`: removes the key when present.  (Every occurrence is
removed; a Python dict holds each key at most once, so this coincides with
it on every representable dict.) -/
def dictPop (d : Dict) (k : String) : Dict :=
  match d with
  | [] => []
  | p :: rest => if p.1 = k then dictPop rest k else p :: dictPop rest k

/-- `.get` on a value that may or may not be an object (objects only; the
source would raise `AttributeError` elsewhere, which never happens on the
shapes the theorems quantify over). -/
def jGet (v : JVal) (k : String) : Option JVal :=
  match v with
  | .obj kvs => dictGet kvs k
  | _ => none

/-- `.get(k, default)` on a JSON value. -/
def jGetD (v : JVal) (k : String) (dflt : JVal) : JVal := (jGet v k).getD dflt

/-- The element list of a JSON array (the handlers only iterate values that
are lists on the inputs the theorems quantify over). -/
def jArr (v : JVal) : List JVal :=
  match v with
  | .arr xs => xs
  | _ => []

/-- Python truthiness of a JSON-shaped value (`if x:`). -/
def pyTruthy (v : JVal) : Bool :=
  match v with
  | .null => false
  | .bool b => b
  | .num n => n != 0
  | .str s => !s.isEmpty
  | .arr xs => !xs.isEmpty
  | .obj kvs => !kvs.isEmpty

/-- `v is None`. -/
def isNull (v : JVal) : Bool :=
  match v with
  | .null => true
  | _ => false

/-! ## chat_completions_service.py -/

/-- Lines 13-17 / 50-55 of `chat_completions_service.py`: drop the
`reasoning` key when its value is a dict all of whose values are `None`.
(`all` over an empty dict is vacuously true, so an empty mapping is also
dropped.) -/
def stripNullReasoning (d : Dict) : Dict :=
  match dictGet d "reasoning" with
  | some (.obj kvs) => if kvs.all (fun kv => isNull kv.2) then dictPop d "reasoning" else d
  | _ => d

/-- `_handle_non_streaming_request`, request-preparation part: copy the
inbound dict, strip all-null `reasoning`, then `pop("stream", None)`.
Returns the body sent to the backend. -/
def nonStreamingOutbound (request_data : Dict) : Dict :=
  dictPop (stripNullReasoning request_data) "stream"

/-- `_handle_streaming_request`, request-preparation part: copy the inbound
dict, set `stream = True`, then strip all-null `reasoning`. -/
def streamingOutbound (request_data : Dict) : Dict :=
  stripNullReasoning (dictSet request_data "stream" (.bool true))

/-! ### Heap-level model of the two handlers (for the frame property)

Python dicts are mutable heap objects; `request_data.copy()` allocates a new
dict and all subsequent `pop`/item-assignment in the handlers target the
copy.  To state that the caller's dict is untouched we model a store of dict
objects addressed by references, and translate the handlers line by line as
store operations. -/

/-- A heap of dict objects; a reference is an index into it. -/
abbrev Store := List Dict

/-- Dereference (total: out-of-range reads give the empty dict; the theorems
only use valid references). -/
def storeGet : Store → Nat → Dict
  | [], _ => []
  | d :: _, 0 => d
  | _ :: rest, n + 1 => storeGet rest n

/-- Apply a mutation to the dict object behind a reference. -/
def storeUpd : Store → Nat → (Dict → Dict) → Store
  | [], _, _ => []
  | d :: rest, 0, f => f d :: rest
  | d :: rest, n + 1, f => d :: storeUpd rest n f

/-- `d.copy()`: allocate a fresh dict object holding the same entries. -/
def storeCopy (s : Store) (r : Nat) : Store × Nat := (s ++ [storeGet s r], s.length)

/-- `_handle_non_streaming_request` on the store: `current_request_data =
request_data.copy()`, strip all-null `reasoning` on the copy,
`current_request_data.pop("stream", None)`.  Returns the store and the
copy's reference. -/
def nonStreamingPrep (s : Store) (rref : Nat) : Store × Nat :=
  let (s1, cur) := storeCopy s rref
  let s2 := storeUpd s1 cur stripNullReasoning
  let s3 := storeUpd s2 cur (fun d => dictPop d "stream")
  (s3, cur)

/-- `_handle_streaming_request` on the store: `stream_request_data =
request_data.copy()`, `stream_request_data["stream"] = True`, strip
all-null `reasoning` on the copy. -/
def streamingPrep (s : Store) (rref : Nat) : Store × Nat :=
  let (s1, cur) := storeCopy s rref
  let s2 := storeUpd s1 cur (fun d => dictSet d "stream" (.bool true))
  let s3 := storeUpd s2 cur stripNullReasoning
  (s3, cur)

/-! ## Backend interaction (non-streaming) -/

/-- Outcome of one HTTP call to the backend: a response with a status code
and JSON body, or a raised transport exception (backend unreachable,
timeout, malformed body). -/
inductive BackendResult : Type where
  | resp (status : Nat) (body : JVal) : BackendResult
  | exc (msg : String) : BackendResult

/-- Rendering of `str(e)` for an `httpx.HTTPStatusError`: httpx formats the
message around the numeric status code, so the status is embedded in the
text. -/
def statusErrMsg (status : Nat) : String :=
  "Error response " ++ toString status ++ " from LLM API"

/-- `response.raise_for_status()` composed with `response.json()`: httpx
raises `HTTPStatusError` for every non-success status — anything outside
2xx, informational and redirect responses included — and only a success
response's body is returned. -/
def raiseForStatus (r : BackendResult) : Except String JVal :=
  match r with
  | .exc m => .error m
  | .resp status body =>
      if 200 ≤ status ∧ status < 300 then .ok body else .error (statusErrMsg status)

/-- `str(e)` of the `IndexError` raised by `response_data.get("choices", [])[0]`
on an empty list. -/
def indexErrMsg : String := "list index out of range"

/-- `_handle_non_streaming_request`, backend part (lines 22-42): post,
`raise_for_status`, read `choices[0]`; any exception is caught and the dict
`{"error": str(e)}` is returned.  Either way the handler returns a plain
dict, which FastAPI serves with HTTP status 200.  Result: (client-facing
HTTP status, client-facing body). -/
def handleNonStreamingResult (r : BackendResult) : Nat × JVal :=
  match raiseForStatus r with
  | .error e => (200, .obj [("error", .str e)])
  | .ok body =>
    match jArr (jGetD body "choices" (.arr [])) with
    | [] => (200, .obj [("error", .str indexErrMsg)])
    | _ :: _ => (200, body)

/-! ## Streaming generators -/

/-- A frame yielded to the client by a streaming generator: either a
forwarded/translated data frame, or the error frame the generator writes
itself (`data: {"type": "error", ...}` resp. `data: {"error": ...}`). -/
inductive SFrame : Type where
  | data (s : String) : SFrame
  | err (msg : String) : SFrame
  deriving DecidableEq, Repr

/-- `stream_response` in `create_response` (api_controller.py lines
146-168): on backend status ≠ 200, yield a single error frame and return;
otherwise forward the events produced by `process_chat_completions_stream`.
An exception raised after `k` events were forwarded is caught and a single
error frame is yielded, ending the generator.  `events` abstracts the
processor's output, `fail` the exception point. -/
def stream_response (status : Nat) (events : List String)
    (fail : Option (Nat × String)) : List SFrame :=
  if status ≠ 200 then
    [.err ("Error from LLM API: " ++ toString status)]
  else
    match fail with
    | none => events.map .data
    | some (k, msg) => (events.take k).map .data ++ [.err msg]

set_option linter.unusedVariables false in
/-- `stream_proxy` in `_handle_streaming_request`
(chat_completions_service.py lines 58-70): opens the backend stream and
forwards raw byte chunks; only a raised exception produces an error frame.
The backend's HTTP status is never inspected by this generator — a
non-success response's body is forwarded verbatim. -/
def stream_proxy (status : Nat) (chunks : List String)
    (fail : Option (Nat × String)) : List SFrame :=
  match fail with
  | none => chunks.map .data
  | some (k, msg) => (chunks.take k).map .data ++ [.err msg]

/-! ## Tool injection (api_controller.py and chat_completions_service.py)

A cached registry ("MCP") tool is a flat function dict
`{name, description, parameters}`; the caches below are lists of such
dicts (`mcp_manager.get_mcp_tools()` / `mcp_manager.mcp_functions_cache`).
Python's name *sets* are modelled as lists used only for membership, which
is equivalent. -/

/-- `"k" in v` for a JSON value that is a dict. -/
def hasKeyJ (v : JVal) (k : String) : Bool := (jGet v k).isSome

/-- `handle_chat_completions`, tool-injection part (chat_completions_service.py
lines 86-103): when the cache is non-empty (Python truthiness of the list)
and `ENABLE_MCP_TOOLS` is set, collect the names under each existing tool's
`function` entry (`tool.get("function", {}).get("name")`), then append, in
cache order, a nested `{"type": "function", "function": tool}` entry for
every cached tool whose `name` is not among them.  The name set is not
extended while appending.  Otherwise the request is left untouched. -/
def handle_chat_completions_inject (enable : Bool) (mcpTools : List Dict)
    (request_data : Dict) : Dict :=
  if !mcpTools.isEmpty && enable then
    let existing_tools := jArr (dictGetD request_data "tools" (.arr []))
    let existing_tool_names : List JVal :=
      existing_tools.map (fun tool => jGetD (jGetD tool "function" (.obj [])) "name" .null)
    let added := mcpTools.filter
      (fun tool => !jvalMem (dictGetD tool "name" .null) existing_tool_names)
    dictSet request_data "tools"
      (.arr (existing_tools ++
        added.map (fun tool => .obj [("type", .str "function"), ("function", .obj tool)])))
  else request_data

/-- `create_response`, first injection pass (api_controller.py lines 61-85),
run on the inbound Responses-shaped request before conversion: build flat
`{"type","name","description","parameters"}` entries from the cache
(`f["name"]` is a plain subscript — the source presumes every cached
function carries a name), collect `tool["name"]` for every existing tool
that has a `"name"` key, and append the cached entries whose name is not
among them. -/
def create_response_inject_pre (enable : Bool) (cache : List Dict)
    (request_data : Dict) : Dict :=
  if !cache.isEmpty && enable then
    let existing_tools := jArr (dictGetD request_data "tools" (.arr []))
    let mcp_tools : List JVal := cache.map (fun f =>
      .obj [("type", .str "function"), ("name", dictGetD f "name" .null),
            ("description", dictGetD f "description" .null),
            ("parameters", dictGetD f "parameters" (.obj []))])
    let existing_tool_names : List JVal :=
      (existing_tools.filter (fun tool => hasKeyJ tool "name")).map
        (fun tool => jGetD tool "name" .null)
    let filtered := mcp_tools.filter
      (fun tool => !jvalMem (jGetD tool "name" .null) existing_tool_names)
    dictSet request_data "tools" (.arr (existing_tools ++ filtered))
  else request_data

/-- Name extraction used by the second injection pass (api_controller.py
lines 100-106): a dict tool contributes `tool["function"]["name"]` when
present, else `tool["name"]` when present; non-dicts contribute nothing. -/
def postToolName (tool : JVal) : Option JVal :=
  match tool with
  | .obj kvs =>
    (match dictGet kvs "function" with
     | some fv =>
       match jGet fv "name" with
       | some n => some n
       | none => dictGet kvs "name"
     | none => dictGet kvs "name")
  | _ => none

/-- `create_response`, second injection pass (api_controller.py lines
89-131), run on the converted chat request: ensure a `tools` list exists,
seed the name set from it, move any `functions` entries into nested tools
(growing the name set with `func.get("name", "")` as the source does), then
append cached functions whose `name` is absent from the set (the set is not
grown during this last loop), and drop the `functions` key. -/
def create_response_inject_post (enable : Bool) (cache : List Dict)
    (chat_request : Dict) : Dict :=
  if !cache.isEmpty && enable then
    let existing_functions := jArr (dictGetD chat_request "functions" (.arr []))
    let cr1 := if hasKey chat_request "tools" then chat_request
               else dictSet chat_request "tools" (.arr [])
    let tools0 := jArr (dictGetD cr1 "tools" (.arr []))
    let names0 : List JVal := tools0.filterMap postToolName
    let fstep := fun (acc : List JVal × List JVal) (func : JVal) =>
      if !jvalMem (jGetD func "name" .null) acc.2 then
        (acc.1 ++ [.obj [("type", .str "function"), ("function", func)]],
         acc.2 ++ [jGetD func "name" (.str "")])
      else acc
    let tn1 := existing_functions.foldl fstep (tools0, names0)
    let mstep := fun (ts : List JVal) (func : Dict) =>
      if !jvalMem (dictGetD func "name" .null) tn1.2 then
        ts ++ [.obj [("type", .str "function"), ("function", .obj func)]]
      else ts
    let tools2 := cache.foldl mstep tn1.1
    dictPop (dictSet cr1 "tools" (.arr tools2)) "functions"
  else chat_request

/-- api_controller.py lines 133-138: pop `tool_choice` when neither
`functions` nor `tools` is truthy, then pop `tool_choice` again
unconditionally ("Remove unsupported tool_choice parameter before
sending"). -/
def finalizeToolChoice (chat_request : Dict) : Dict :=
  let cr := if !pyTruthy (dictGetD chat_request "functions" .null) &&
               !pyTruthy (dictGetD chat_request "tools" .null)
            then dictPop chat_request "tool_choice" else chat_request
  dictPop cr "tool_choice"

/-! ## Format translator (modelled)

`responses_service.py` (`convert_responses_to_chat_completions`,
`convert_chat_completions_to_responses`, `process_chat_completions_stream`)
is referenced by `api_controller.py` but absent from the visible source
tree; the definitions below are modelled from the specification's §4.1 and
§4.2. -/

/-- Concatenated `text` fields of a message item's content parts. -/
def textOfParts (parts : List JVal) : String :=
  parts.foldl (fun acc p =>
    acc ++ (match jGet p "text" with | some (.str t) => t | _ => "")) ""

/-- The string payload of a JSON value, when it is a string. -/
def jStr (v : JVal) : Option String :=
  match v with
  | .str s => some s
  | _ => none

/-- Modelled from the spec: item conversion inside
`convert_responses_to_chat_completions` (missing `responses_service.py`).
Per §4.1: Message → role + content; FunctionCall → assistant message with a
tool_call entry; FunctionCallOutput → tool-result message referencing its
call-id; unknown/malformed items are skipped with a diagnostic (here:
`none`), not fatal. -/
def convertItem (item : JVal) : Option Dict :=
  match (jGet item "type").bind jStr with
  | some t =>
    if t = "message" then
      some [("role", jGetD item "role" (.str "user")),
            ("content", .str (textOfParts (jArr (jGetD item "content" (.arr [])))))]
    else if t = "function_call" then
      some [("role", .str "assistant"), ("content", .null),
            ("tool_calls", .arr [.obj [("id", jGetD item "call_id" .null),
                ("type", .str "function"),
                ("function", .obj [("name", jGetD item "name" .null),
                                   ("arguments", jGetD item "arguments" (.str ""))])]])]
    else if t = "function_call_output" then
      some [("role", .str "tool"), ("tool_call_id", jGetD item "call_id" .null),
            ("content", jGetD item "output" (.str ""))]
    else none
  | none => none

/-- A flat Responses-style tool definition mapped into the nested
Chat-Completions tool shape. -/
def flatToolToNested (tool : JVal) : JVal :=
  .obj [("type", .str "function"),
        ("function", .obj [("name", jGetD tool "name" .null),
                           ("description", jGetD tool "description" .null),
                           ("parameters", jGetD tool "parameters" (.obj []))])]

/-- Modelled from the spec: `convert_responses_to_chat_completions`
(missing `responses_service.py`).  Per §4.1 it fails with `ValidationError`
only when `model` is absent; maps the `input` items to messages (skipping
unknown items); maps flat tools to the nested shape; passes `tool_choice`
and `stream` through.  Fields irrelevant to the claims (e.g. the
`reasoning` strip, temperature passthrough) are omitted. -/
def convert_responses_to_chat_completions (d : Dict) : Except String Dict :=
  match dictGet d "model" with
  | none => .error "ValidationError: model is required"
  | some model =>
    let messages := (jArr (dictGetD d "input" (.arr []))).filterMap
      (fun it => (convertItem it).map JVal.obj)
    let base : Dict := [("model", model), ("messages", .arr messages)]
    let base := match dictGet d "tools" with
      | some tv => dictSet base "tools" (.arr ((jArr tv).map flatToolToNested))
      | none => base
    let base := match dictGet d "tool_choice" with
      | some tc => dictSet base "tool_choice" tc
      | none => base
    let base := match dictGet d "stream" with
      | some sv => dictSet base "stream" sv
      | none => base
    .ok base

/-- Modelled from the spec: `convert_chat_completions_to_responses`
(missing `responses_service.py`).  Per §4.1: first choice's message becomes
the `output` item sequence (one text item if content present, one
FunctionCall item per tool call); `finish_reason` maps to a status; usage
counters are renamed prompt→input, completion→output, total preserved;
fails with `UpstreamShapeError` when `choices` is empty. -/
def convert_chat_completions_to_responses (resp : JVal) (chat_request : Dict) :
    Except String Dict :=
  match jArr (jGetD resp "choices" (.arr [])) with
  | [] => .error "UpstreamShapeError: empty choices"
  | choice :: _ =>
    let msg := jGetD choice "message" (.obj [])
    let textItems : List JVal := match jGet msg "content" with
      | some (.str s) =>
          [.obj [("type", .str "message"), ("role", .str "assistant"),
                 ("content", .arr [.obj [("type", .str "output_text"),
                                         ("text", .str s)]])]]
      | _ => []
    let callItems : List JVal := (jArr (jGetD msg "tool_calls" (.arr []))).map (fun tc =>
      .obj [("type", .str "function_call"),
            ("call_id", jGetD tc "id" .null),
            ("name", jGetD (jGetD tc "function" (.obj [])) "name" .null),
            ("arguments", jGetD (jGetD tc "function" (.obj [])) "arguments" (.str ""))])
    let status : JVal := match jGet choice "finish_reason" with
      | some (.str "length") => .str "incomplete"
      | _ => .str "completed"
    let usage := jGetD resp "usage" (.obj [])
    .ok [("model", dictGetD chat_request "model" .null), ("status", status),
         ("output", .arr (textItems ++ callItems)),
         ("usage", .obj [("input_tokens", jGetD usage "prompt_tokens" (.num 0)),
                         ("output_tokens", jGetD usage "completion_tokens" (.num 0)),
                         ("total_tokens", jGetD usage "total_tokens" (.num 0))])]

/-- `create_response`, non-streaming path, up to the outbound backend
request: first injection pass, conversion, second injection pass,
`tool_choice` finalization (api_controller.py lines 61-138).  A conversion
failure propagates as an exception. -/
def create_response_outbound (enable : Bool) (cache : List Dict)
    (request_data : Dict) : Except String Dict :=
  match convert_responses_to_chat_completions
          (create_response_inject_pre enable cache request_data) with
  | .error e => .error e
  | .ok chat_request =>
      .ok (finalizeToolChoice (create_response_inject_post enable cache chat_request))

/-- `create_response`, non-streaming path, client-facing outcome: any
exception inside the inner try is re-raised as `HTTPException(500,
"Error processing non-streaming request: ...")`, which the outer handler
catches and wraps once more into `HTTPException(500, "Error processing
request: ...")`; the exception's rendering keeps the embedded backend
status text.  A conversion `ValidationError` is caught by the outer
handler only.  Result: (client-facing HTTP status, detail/body). -/
def create_response_result (enable : Bool) (cache : List Dict)
    (request_data : Dict) (backend : BackendResult) : Nat × JVal :=
  match create_response_outbound enable cache request_data with
  | .error e => (500, .str ("Error processing request: " ++ e))
  | .ok chat_request =>
    match raiseForStatus backend with
    | .error e =>
        (500, .str ("Error processing request: 500: Error processing non-streaming request: " ++ e))
    | .ok body =>
      match convert_chat_completions_to_responses body chat_request with
      | .error e =>
          (500, .str ("Error processing request: 500: Error processing non-streaming request: " ++ e))
      | .ok rd => (200, .obj rd)

/-- Number of error frames in a stream. -/
def errCount (l : List SFrame) : Nat :=
  l.countP (fun f => match f with | .err _ => true | _ => false)

/-- No frame of any kind follows an error frame. -/
def noFrameAfterErr : List SFrame → Bool
  | [] => true
  | .err _ :: rest => rest.isEmpty
  | .data _ :: rest => noFrameAfterErr rest

/-! ## Stream reconstructor (modelled)

`process_chat_completions_stream` lives in the missing
`responses_service.py`; the reconstructor below is modelled from §4.2 of
the spec.  A backend chunk carries an optional text delta, a list of
tool-call deltas keyed by a backend-local index, and an optional terminal
`finish_reason`. -/

/-- One tool-call delta in a backend chunk: backend-local index and an
argument fragment. -/
structure ToolDelta : Type where
  idx : Nat
  args : String
  deriving DecidableEq, Repr

/-- One parsed backend stream chunk. -/
structure BChunk : Type where
  text : Option String := none
  tools : List ToolDelta := []
  finish : Option String := none
  deriving DecidableEq, Repr

/-- Client-facing streaming events (§4.2 steps 1-4). -/
inductive Ev : Type where
  | started : Ev
  | textDelta (s : String) : Ev
  | itemAdded (idx : Nat) (outIdx : Nat) : Ev
  | argDelta (idx : Nat) (s : String) : Ev
  | itemDone (idx : Nat) (args : String) : Ev
  | textDone (s : String) : Ev
  | completed : Ev
  deriving DecidableEq, Repr

/-- Per-request reconstructor state (`StreamState` in §3). -/
structure SState : Type where
  started : Bool := false
  finished : Bool := false
  nextOut : Nat := 0
  accs : List (Nat × String) := []
  textBuf : String := ""
  deriving Repr

/-- Lookup of a tool-call accumulator by backend index. -/
def lookupAcc (accs : List (Nat × String)) (idx : Nat) : Option String :=
  match accs with
  | [] => none
  | p :: rest => if p.1 = idx then some p.2 else lookupAcc rest idx

/-- Modelled from the spec, §4.2 step 3: an index seen for the first time
allocates the next output index and emits an item-added event before its
first argument-delta event; a known index appends the fragment to its
buffer and emits only the argument-delta event. -/
def toolStep (st : SState) (td : ToolDelta) : SState × List Ev :=
  match lookupAcc st.accs td.idx with
  | none =>
      ({ st with accs := st.accs ++ [(td.idx, td.args)], nextOut := st.nextOut + 1 },
       [.itemAdded td.idx st.nextOut, .argDelta td.idx td.args])
  | some _ =>
      ({ st with accs := (st.accs.map
           (fun q => if q.1 = td.idx then (q.1, q.2 ++ td.args) else q)) },
       [.argDelta td.idx td.args])

/-- All tool-call deltas of one chunk, in arrival order. -/
def toolSteps (st : SState) : List ToolDelta → SState × List Ev
  | [] => (st, [])
  | td :: tds =>
      let r := toolStep st td
      let rest := toolSteps r.1 tds
      (rest.1, r.2 ++ rest.2)

/-- §4.2 step 1: emit a single started event on the first frame. -/
def startPart (st : SState) : SState × List Ev :=
  if st.started then (st, []) else ({ st with started := true }, [.started])

/-- §4.2 step 2: a non-empty text content delta is emitted verbatim and
appended to the text accumulator. -/
def textPart (st : SState) (t? : Option String) : SState × List Ev :=
  match t? with
  | some t =>
      if t.isEmpty then (st, [])
      else ({ st with textBuf := st.textBuf ++ t }, [.textDelta t])
  | none => (st, [])

/-- §4.2 step 4: a terminal `finish_reason` finalizes every open
accumulator (text, then each tool-call index) and emits the completed
event. -/
def finishPart (st : SState) (f? : Option String) : SState × List Ev :=
  match f? with
  | some _ =>
      ({ st with finished := true },
       (if st.textBuf.isEmpty then [] else [.textDone st.textBuf]) ++
         st.accs.map (fun p => .itemDone p.1 p.2) ++ [.completed])
  | none => (st, [])

/-- Modelled from the spec, §4.2 steps 1-4: one chunk of the reconstructor.
A chunk arriving after the terminal frame is ignored (`Completed` is
terminal). -/
def chunkStep (st : SState) (c : BChunk) : SState × List Ev :=
  if st.finished then (st, [])
  else
    let a := startPart st
    let b := textPart a.1 c.text
    let d := toolSteps b.1 c.tools
    let e := finishPart d.1 c.finish
    (e.1, a.2 ++ b.2 ++ d.2 ++ e.2)

/-- Run the reconstructor from a state, accumulating emitted events. -/
def runStream (st : SState) (evs : List Ev) : List BChunk → SState × List Ev
  | [] => (st, evs)
  | c :: cs =>
      let r := chunkStep st c
      runStream r.1 (evs ++ r.2) cs

/-- Modelled from the spec: `process_chat_completions_stream` (missing
`responses_service.py`) — the full client-facing event sequence for a
parsed backend chunk sequence. -/
def process_chat_completions_stream (cs : List BChunk) : List Ev :=
  (runStream {} [] cs).2

/-- Number of item-added events for a backend index. -/
def addedCount (idx : Nat) (evs : List Ev) : Nat :=
  evs.countP (fun e => match e with | .itemAdded j _ => j = idx | _ => false)

/-- Number of argument-delta events for a backend index. -/
def deltaCount (idx : Nat) (evs : List Ev) : Nat :=
  evs.countP (fun e => match e with | .argDelta j _ => j = idx | _ => false)

/-- Number of item-done events for a backend index. -/
def doneCount (idx : Nat) (evs : List Ev) : Nat :=
  evs.countP (fun e => match e with | .itemDone j _ => j = idx | _ => false)

/-- Concatenation, in emission order, of all argument-delta fragments for a
backend index. -/
def argConcat (idx : Nat) : List Ev → String
  | [] => ""
  | .argDelta j s :: rest => (if j = idx then s else "") ++ argConcat idx rest
  | _ :: rest => argConcat idx rest

/-- Scanning the event sequence, the first tool-call event for this index
is an item-added event (never an argument-delta). -/
def noDeltaBeforeAdded (idx : Nat) : List Ev → Bool
  | [] => true
  | .argDelta j _ :: rest => if j = idx then false else noDeltaBeforeAdded idx rest
  | .itemAdded j _ :: rest => if j = idx then true else noDeltaBeforeAdded idx rest
  | _ :: rest => noDeltaBeforeAdded idx rest

/-- An event that carries no tool-call information for this index. -/
def untouched (idx : Nat) (e : Ev) : Bool :=
  match e with
  | .itemAdded j _ => j != idx
  | .argDelta j _ => j != idx
  | .itemDone j _ => j != idx
  | _ => true

/-- An event that carries no tool-call information for any index. -/
def neutralEv (e : Ev) : Bool :=
  match e with
  | .started => true
  | .textDelta _ => true
  | .textDone _ => true
  | .completed => true
  | _ => false

/-- Relation between an index's accumulator and the events emitted so far:
an open accumulator has exactly one item-added event, no argument-delta
before it, the buffer equal to the delta concatenation, and no item-done
yet; an absent accumulator has no tool-call events for the index at all. -/
def EvOk (idx : Nat) (evs : List Ev) : Option String → Prop
  | none => addedCount idx evs = 0 ∧ deltaCount idx evs = 0 ∧ doneCount idx evs = 0
  | some b => addedCount idx evs = 1 ∧ noDeltaBeforeAdded idx evs = true ∧
      argConcat idx evs = b ∧ doneCount idx evs = 0

/-- Invariant of the unfinished reconstructor: accumulator keys are unique
and every index's accumulator matches the emitted events. -/
def AccInv (accs : List (Nat × String)) (evs : List Ev) : Prop :=
  (accs.map Prod.fst).Nodup ∧ ∀ idx, EvOk idx evs (lookupAcc accs idx)

/-- The property claimed of the full event sequence, per index. -/
def StreamGoal (idx : Nat) (evs : List Ev) : Prop :=
  addedCount idx evs ≤ 1 ∧ noDeltaBeforeAdded idx evs = true ∧
  ∀ a, Ev.itemDone idx a ∈ evs → argConcat idx evs = a

/-- Reconstructor invariant: the accumulator relation while streaming, the
claimed property once the terminal frame has been processed. -/
def StreamInv (st : SState) (evs : List Ev) : Prop :=
  (st.finished = false → AccInv st.accs evs) ∧
  (st.finished = true → ∀ idx, StreamGoal idx evs)

/-! ## Text projections (for the round-trip property)

`itemText` reads the text content of Message items of a Responses-shaped
request; `plainMsgText` reads the content of plain chat messages (excluding
tool-result messages, which carry a `tool_call_id`); `outputTexts` reads
the text items of a Responses-shaped response. -/

/-- Text of a Message input item; `none` for every other item kind. -/
def itemText (it : JVal) : Option String :=
  match (jGet it "type").bind jStr with
  | some t =>
      if t = "message" then some (textOfParts (jArr (jGetD it "content" (.arr []))))
      else none
  | none => none

/-- Texts of the Message items of a /responses request, in order. -/
def inputTexts (d : Dict) : List String :=
  (jArr (dictGetD d "input" (.arr []))).filterMap itemText

/-- String content of a plain chat message (tool-result messages and
messages without string content contribute nothing). -/
def plainMsgText (m : JVal) : Option String :=
  match jGet m "content" with
  | some (.str c) => if hasKeyJ m "tool_call_id" then none else some c
  | _ => none

/-- Contents of the plain chat messages of a backend request, in order. -/
def plainMessageTexts (cr : Dict) : List String :=
  (jArr (dictGetD cr "messages" (.arr []))).filterMap plainMsgText

/-- Texts of the message output items of a Responses-shaped response. -/
def outputTexts (rd : Dict) : List String :=
  (jArr (dictGetD rd "output" (.arr []))).filterMap (fun it =>
    match (jGet it "type").bind jStr with
    | some t =>
        if t = "message" then some (textOfParts (jArr (jGetD it "content" (.arr []))))
        else none
    | none => none)

/-- A backend chat-completions response whose single choice carries plain
text content. -/
def chatTextResponse (s : String) : JVal :=
  .obj [("choices", .arr [.obj
    [("message", .obj [("role", .str "assistant"), ("content", .str s)]),
     ("finish_reason", .str "stop")]])]

/-! ## Tool-name projections (for the merge invariant) -/

/-- The name under a nested chat tool entry, as the chat-completions
injection reads it: `tool.get("function", {}).get("name")`. -/
def chatFuncName (t : JVal) : JVal := jGetD (jGetD t "function" (.obj [])) "name" .null

/-- Names of a nested tool list. -/
def funcNames (ts : List JVal) : List JVal := ts.map chatFuncName

/-- The `tools` array of a request dict (empty when absent). -/
def toolsOf (d : Dict) : List JVal := jArr (dictGetD d "tools" (.arr []))

/-- The name of a flat Responses-style tool entry. -/
def flatName (t : JVal) : JVal := jGetD t "name" .null

/-- The flat tool entry the first /responses injection pass builds from a
cached function (api_controller.py lines 66-69). -/
def mkFlatTool (f : Dict) : JVal :=
  .obj [("type", .str "function"), ("name", dictGetD f "name" .null),
        ("description", dictGetD f "description" .null),
        ("parameters", dictGetD f "parameters" (.obj []))]

/-! ## Dictionary lemmas -/

theorem dictGet_dictPop_self (d : Dict) (k : String) :
    dictGet (dictPop d k) k = none := by
  induction d with
  | nil => rfl
  | cons p rest ih =>
    by_cases h : p.1 = k
    · simpa [dictPop, h] using ih
    · simp [dictPop, h, dictGet, ih]

theorem dictGet_dictPop_ne (d : Dict) (k k' : String) (h : k' ≠ k) :
    dictGet (dictPop d k') k = dictGet d k := by
  induction d with
  | nil => rfl
  | cons p rest ih =>
    by_cases hp : p.1 = k'
    · have : ¬ p.1 = k := by rw [hp]; exact h
      simp [dictPop, hp, dictGet, this, ih, h]
    · simp [dictPop, hp, dictGet, ih]

theorem dictGet_dictSet_self (d : Dict) (k : String) (v : JVal) :
    dictGet (dictSet d k v) k = some v := by
  induction d with
  | nil => simp [dictSet, dictGet]
  | cons p rest ih =>
    by_cases hp : p.1 = k
    · simp [dictSet, hp, dictGet]
    · simp [dictSet, hp, dictGet, ih]

theorem dictGet_dictSet_ne (d : Dict) (k k' : String) (v : JVal) (h : k' ≠ k) :
    dictGet (dictSet d k' v) k = dictGet d k := by
  induction d with
  | nil => simp [dictSet, dictGet, h]
  | cons p rest ih =>
    by_cases hp : p.1 = k'
    · have : ¬ p.1 = k := by rw [hp]; exact h
      simp [dictSet, hp, dictGet, this, h]
    · simp [dictSet, hp, dictGet, ih]

/-! ## Claim C2 — tool_choice handling on /responses -/

/-- C2 counterexample: a /responses request with a declared tool and
`tool_choice = "auto"` converts successfully, the merged tool list is
non-empty, yet the outbound request carries no `tool_choice` — the second,
unconditional `chat_request.pop("tool_choice", None)` at api_controller.py
line 138 removes it, so a client-supplied `tool_choice` is never
preserved. -/
theorem C2_counterexample :
    (create_response_outbound false []
        [("model", .str "m"),
         ("tools", .arr [.obj [("name", .str "t"), ("parameters", .obj [])]]),
         ("tool_choice", .str "auto")]).toOption.map
      (fun cr => (dictGet cr "tool_choice", pyTruthy (dictGetD cr "tools" .null)))
    = some (none, true) := by rfl

/-- C2 (amended): the outbound /responses backend request never contains
`tool_choice`: it is removed unconditionally, whether or not the merged
tool list is empty. -/
theorem C2_tool_choice_always_removed (enable : Bool) (cache : List Dict)
    (d cr : Dict) (h : create_response_outbound enable cache d = .ok cr) :
    dictGet cr "tool_choice" = none := by
  unfold create_response_outbound at h
  cases hc : convert_responses_to_chat_completions
      (create_response_inject_pre enable cache d) with
  | error e => rw [hc] at h; exact absurd h (by simp)
  | ok c =>
    rw [hc] at h
    have hcr : finalizeToolChoice (create_response_inject_post enable cache c) = cr := by
      simpa using h
    rw [← hcr]
    show dictGet (dictPop _ "tool_choice") "tool_choice" = none
    exact dictGet_dictPop_self _ _

/-- Witness for C2: the amended theorem applied to a concrete request. -/
theorem C2_witness :
    dictGet [("model", JVal.str "m"), ("messages", JVal.arr [])] "tool_choice" = none :=
  C2_tool_choice_always_removed false [] [("model", .str "m")]
    [("model", JVal.str "m"), ("messages", JVal.arr [])] rfl

/-! ## Claim C5 — stripping all-null reasoning -/

/-- C5: on both chat-completions handlers, a `reasoning` field that is a
mapping with only null values is absent from the outbound request, and a
`reasoning` mapping with at least one non-null value is forwarded
unchanged. -/
theorem C5_reasoning_strip (d : Dict) (kvs : List (String × JVal))
    (h : dictGet d "reasoning" = some (.obj kvs)) :
    (kvs.all (fun kv => isNull kv.2) = true →
       dictGet (nonStreamingOutbound d) "reasoning" = none ∧
       dictGet (streamingOutbound d) "reasoning" = none) ∧
    (kvs.all (fun kv => isNull kv.2) = false →
       dictGet (nonStreamingOutbound d) "reasoning" = some (.obj kvs) ∧
       dictGet (streamingOutbound d) "reasoning" = some (.obj kvs)) := by
  have hne : "stream" ≠ "reasoning" := by decide
  have hs : dictGet (dictSet d "stream" (.bool true)) "reasoning" = some (.obj kvs) := by
    rw [dictGet_dictSet_ne _ _ _ _ hne]; exact h
  constructor
  · intro hall
    constructor
    · have h1 : stripNullReasoning d = dictPop d "reasoning" := by
        simp [stripNullReasoning, h, hall]
      rw [nonStreamingOutbound, h1, dictGet_dictPop_ne _ _ _ hne]
      exact dictGet_dictPop_self _ _
    · have h1 : stripNullReasoning (dictSet d "stream" (.bool true)) =
          dictPop (dictSet d "stream" (.bool true)) "reasoning" := by
        simp [stripNullReasoning, hs, hall]
      rw [streamingOutbound, h1]
      exact dictGet_dictPop_self _ _
  · intro hnall
    constructor
    · have h1 : stripNullReasoning d = d := by
        simp [stripNullReasoning, h, hnall]
      rw [nonStreamingOutbound, h1, dictGet_dictPop_ne _ _ _ hne]
      exact h
    · have h1 : stripNullReasoning (dictSet d "stream" (.bool true)) =
          dictSet d "stream" (.bool true) := by
        simp [stripNullReasoning, hs, hnall]
      rw [streamingOutbound, h1]
      exact hs

/-- Witness for C5: an all-null reasoning mapping is stripped by both
handlers on a concrete request. -/
theorem C5_witness :
    dictGet (nonStreamingOutbound [("reasoning", JVal.obj [("effort", JVal.null)])])
        "reasoning" = none ∧
    dictGet (streamingOutbound [("reasoning", JVal.obj [("effort", JVal.null)])])
        "reasoning" = none :=
  (C5_reasoning_strip [("reasoning", JVal.obj [("effort", JVal.null)])]
    [("effort", JVal.null)] rfl).1 rfl

/-! ## Claim C7 — ENABLE_MCP_TOOLS disabled means no injection -/

/-- C7: with the feature flag off, the chat-completions injection and both
/responses injection passes leave the request untouched, and the outbound
/responses request is independent of the registry cache. -/
theorem C7_flag_disables_injection (cache : List Dict) (d : Dict) :
    handle_chat_completions_inject false cache d = d ∧
    create_response_inject_pre false cache d = d ∧
    create_response_inject_post false cache d = d ∧
    create_response_outbound false cache d = create_response_outbound false [] d := by
  refine ⟨?_, ?_, ?_, ?_⟩
  · simp [handle_chat_completions_inject]
  · simp [create_response_inject_pre]
  · simp [create_response_inject_post]
  · have h1 : create_response_inject_pre false cache d = d := by
      simp [create_response_inject_pre]
    have h2 : create_response_inject_pre false ([] : List Dict) d = d := by
      simp [create_response_inject_pre]
    rw [create_response_outbound, create_response_outbound, h1, h2]
    cases convert_responses_to_chat_completions d with
    | error e => rfl
    | ok cr => simp [create_response_inject_post]

/-! ## Claim C10 — handlers never mutate the caller's dict -/

theorem storeGet_append_lt (s : Store) (d : Dict) (r : Nat) (h : r < s.length) :
    storeGet (s ++ [d]) r = storeGet s r := by
  induction s generalizing r with
  | nil => exact absurd h (by simp)
  | cons a rest ih =>
    cases r with
    | zero => rfl
    | succ n => exact ih n (by simpa using h)

theorem storeGet_storeUpd_ne (s : Store) (r r' : Nat) (f : Dict → Dict)
    (h : r ≠ r') : storeGet (storeUpd s r' f) r = storeGet s r := by
  induction s generalizing r r' with
  | nil => rfl
  | cons a rest ih =>
    cases r' with
    | zero =>
      cases r with
      | zero => exact absurd rfl h
      | succ n => rfl
    | succ m =>
      cases r with
      | zero => rfl
      | succ n => exact ih n m (fun hh => h (by rw [hh]))

/-- C10: both chat-completions handlers copy the inbound dict first, and
all subsequent mutations (`pop("reasoning")`, `pop("stream")`,
`["stream"] = True`) target the copy — the caller's dict object is
unchanged at top level after the call. -/
theorem C10_caller_dict_unchanged (s : Store) (r : Nat) (h : r < s.length) :
    storeGet (nonStreamingPrep s r).1 r = storeGet s r ∧
    storeGet (streamingPrep s r).1 r = storeGet s r := by
  have hne : r ≠ s.length := Nat.ne_of_lt h
  constructor
  · show storeGet
      (storeUpd (storeUpd (s ++ [storeGet s r]) s.length stripNullReasoning)
        s.length (fun d => dictPop d "stream")) r = storeGet s r
    rw [storeGet_storeUpd_ne _ _ _ _ hne, storeGet_storeUpd_ne _ _ _ _ hne,
      storeGet_append_lt _ _ _ h]
  · show storeGet
      (storeUpd (storeUpd (s ++ [storeGet s r]) s.length
          (fun d => dictSet d "stream" (.bool true)))
        s.length stripNullReasoning) r = storeGet s r
    rw [storeGet_storeUpd_ne _ _ _ _ hne, storeGet_storeUpd_ne _ _ _ _ hne,
      storeGet_append_lt _ _ _ h]

/-- Witness for C10: on a store holding one request dict, both handlers
leave the caller's object intact (while the copy they send differs). -/
theorem C10_witness :
    storeGet (nonStreamingPrep [[("stream", JVal.bool true)]] 0).1 0 =
      [("stream", JVal.bool true)] ∧
    storeGet (streamingPrep [[("stream", JVal.bool true)]] 0).1 0 =
      [("stream", JVal.bool true)] :=
  C10_caller_dict_unchanged [[("stream", JVal.bool true)]] 0 (by decide)

/-! ## Claim C3 — streaming error-frame discipline -/

theorem errCount_map_data (l : List String) : errCount (l.map SFrame.data) = 0 := by
  induction l with
  | nil => rfl
  | cons a t ih => simp [errCount, List.countP_cons, ih]

theorem noFrameAfterErr_map_data (l : List String) :
    noFrameAfterErr (l.map SFrame.data) = true := by
  induction l with
  | nil => rfl
  | cons a t ih => simpa [noFrameAfterErr] using ih

theorem errCount_data_err (l : List String) (m : String) :
    errCount (l.map SFrame.data ++ [SFrame.err m]) = 1 := by
  rw [errCount, List.countP_append]
  have h0 : errCount (l.map SFrame.data) = 0 := errCount_map_data l
  rw [errCount] at h0
  rw [h0]
  rfl

theorem noFrameAfterErr_data_err (l : List String) (m : String) :
    noFrameAfterErr (l.map SFrame.data ++ [SFrame.err m]) = true := by
  induction l with
  | nil => rfl
  | cons a t ih => simpa [noFrameAfterErr] using ih

/-- C3 counterexample: on the /v1/chat/completions passthrough endpoint, a
backend stream opened with HTTP status 500 is proxied verbatim —
`stream_proxy` never inspects the status, so the client-facing stream
carries zero error frames, not exactly one. -/
theorem C3_counterexample :
    stream_proxy 500 ["backend error body"] none = [.data "backend error body"] ∧
    errCount (stream_proxy 500 ["backend error body"] none) = 0 := ⟨rfl, rfl⟩

/-- C3 (amended): on the /responses endpoint the claimed discipline holds —
a non-success backend status or a mid-stream failure produces exactly one
error frame and nothing follows it, and a clean stream produces none.  On
the chat-completions passthrough endpoint the discipline holds for
transport failures only; a non-success backend status yields no error frame
(the body is proxied verbatim). -/
theorem C3_error_frame_discipline (status : Nat) (events chunks : List String)
    (fail fail2 : Option (Nat × String)) :
    noFrameAfterErr (stream_response status events fail) = true ∧
    errCount (stream_response status events fail) =
      (if status ≠ 200 then 1 else match fail with | some _ => 1 | none => 0) ∧
    noFrameAfterErr (stream_proxy status chunks fail2) = true ∧
    errCount (stream_proxy status chunks fail2) =
      (match fail2 with | some _ => 1 | none => 0) := by
  refine ⟨?_, ?_, ?_, ?_⟩
  · simp only [stream_response]
    split
    · rfl
    · cases fail with
      | none => exact noFrameAfterErr_map_data events
      | some p => exact noFrameAfterErr_data_err (events.take p.1) p.2
  · simp only [stream_response]
    split
    · rfl
    · cases fail with
      | none => exact errCount_map_data events
      | some p => exact errCount_data_err (events.take p.1) p.2
  · simp only [stream_proxy]
    cases fail2 with
    | none => exact noFrameAfterErr_map_data chunks
    | some p => exact noFrameAfterErr_data_err (chunks.take p.1) p.2
  · simp only [stream_proxy]
    cases fail2 with
    | none => exact errCount_map_data chunks
    | some p => exact errCount_data_err (chunks.take p.1) p.2

/-! ## Claim C4 — non-streaming failure surfacing -/

theorem infix_statusErrMsg (s : Nat) : (toString s).data <:+: (statusErrMsg s).data := by
  refine ⟨("Error response ").data, (" from LLM API").data, ?_⟩
  simp [statusErrMsg, String.data_append, List.append_assoc]

/-- C4 counterexample: on /v1/chat/completions, a backend 503 is returned
to the client with HTTP status 200 and an error body — not as a server-side
error. -/
theorem C4_counterexample :
    (handleNonStreamingResult (.resp 503 (.obj []))).1 = 200 ∧
    ¬ 500 ≤ (handleNonStreamingResult (.resp 503 (.obj []))).1 := by
  constructor
  · rfl
  · show ¬ 500 ≤ 200
    decide

/-- C4 (amended): for a non-success backend status (anything outside 2xx,
which httpx raises for) the /responses endpoint raises an HTTP 500 whose
detail message embeds the backend's status text, while the
/v1/chat/completions endpoint returns HTTP 200 with a JSON `error` body
embedding the backend's status text; for an unreachable backend (raised
transport exception) the same two surfaces carry the exception's message —
the status is embedded whenever it is available. -/
theorem C4_failure_surfacing (s : Nat) (b : JVal) (m : String) (enable : Bool)
    (cache : List Dict) (d cr : Dict) (hs : ¬ (200 ≤ s ∧ s < 300))
    (hok : create_response_outbound enable cache d = .ok cr) :
    ((handleNonStreamingResult (.resp s b)).1 = 200 ∧
     ∃ msg, (handleNonStreamingResult (.resp s b)).2 = .obj [("error", .str msg)] ∧
       (toString s).data <:+: msg.data) ∧
    ((create_response_result enable cache d (.resp s b)).1 = 500 ∧
     ∃ msg, (create_response_result enable cache d (.resp s b)).2 = .str msg ∧
       (toString s).data <:+: msg.data) ∧
    (handleNonStreamingResult (.exc m) = (200, .obj [("error", .str m)])) ∧
    ((create_response_result enable cache d (.exc m)).1 = 500 ∧
     ∃ msg, (create_response_result enable cache d (.exc m)).2 = .str msg ∧
       m.data <:+: msg.data) := by
  have hraise : raiseForStatus (.resp s b) = .error (statusErrMsg s) := by
    simp [raiseForStatus, hs]
  refine ⟨⟨?_, ?_⟩, ?_, ?_, ?_⟩
  · simp [handleNonStreamingResult, hraise]
  · refine ⟨statusErrMsg s, ?_, infix_statusErrMsg s⟩
    simp [handleNonStreamingResult, hraise]
  · rw [create_response_result, hok, hraise]
    refine ⟨rfl, ?_⟩
    refine ⟨"Error processing request: 500: Error processing non-streaming request: "
      ++ statusErrMsg s, rfl, ?_⟩
    exact List.IsInfix.trans (infix_statusErrMsg s)
      ⟨("Error processing request: 500: Error processing non-streaming request: ").data,
        [], by simp [String.data_append]⟩
  · rfl
  · rw [create_response_result, hok]
    refine ⟨rfl, ?_⟩
    refine ⟨"Error processing request: 500: Error processing non-streaming request: "
      ++ m, rfl, ?_⟩
    exact ⟨("Error processing request: 500: Error processing non-streaming request: ").data,
      [], by simp [String.data_append]⟩

/-- Witness for C4: the amended theorem at a backend 503 and at a raised
transport error, against a concrete converted request. -/
theorem C4_witness :
    ((handleNonStreamingResult (.resp 503 (.obj []))).1 = 200 ∧
     ∃ msg, (handleNonStreamingResult (.resp 503 (.obj []))).2 = .obj [("error", .str msg)] ∧
       (toString 503).data <:+: msg.data) ∧
    ((create_response_result false [] [("model", .str "m")] (.resp 503 (.obj []))).1 = 500 ∧
     ∃ msg, (create_response_result false [] [("model", .str "m")] (.resp 503 (.obj []))).2 = .str msg ∧
       (toString 503).data <:+: msg.data) ∧
    (handleNonStreamingResult (.exc "connection refused")
      = (200, .obj [("error", .str "connection refused")])) ∧
    ((create_response_result false [] [("model", .str "m")] (.exc "connection refused")).1 = 500 ∧
     ∃ msg, (create_response_result false [] [("model", .str "m")] (.exc "connection refused")).2 = .str msg ∧
       ("connection refused").data <:+: msg.data) :=
  C4_failure_surfacing 503 (.obj []) "connection refused" false [] [("model", .str "m")]
    [("model", JVal.str "m"), ("messages", JVal.arr [])] (by omega) rfl

/-! ## Claim C6 — ValidationError and its surfacing -/

theorem inject_pre_preserves_model (enable : Bool) (cache : List Dict) (d : Dict) :
    dictGet (create_response_inject_pre enable cache d) "model" = dictGet d "model" := by
  simp only [create_response_inject_pre]
  split
  · exact dictGet_dictSet_ne _ _ _ _ (by decide)
  · rfl

/-- C6 counterexample: a /responses request without `model` is answered
with HTTP 500 — the catch-all handler at api_controller.py lines 199-204
turns the conversion's ValidationError into a *server* error, not a client
error (4xx). -/
theorem C6_counterexample :
    create_response_result false [] [("input", JVal.arr [])] (.resp 200 (.obj []))
      = (500, .str "Error processing request: ValidationError: model is required") ∧
    ¬ (400 ≤ 500 ∧ 500 < 500) := ⟨rfl, by decide⟩

/-- C6 (amended): conversion fails with ValidationError exactly when
`model` is absent (unknown or malformed input items are skipped, never
fatal), and that failure is surfaced to the client as an HTTP 500 server
error carrying a descriptive message. -/
theorem C6_validation (d : Dict) :
    ((convert_responses_to_chat_completions d).isOk = true ↔
       (dictGet d "model").isSome = true) ∧
    (dictGet d "model" = none →
       ∀ (enable : Bool) (cache : List Dict) (backend : BackendResult),
         create_response_result enable cache d backend =
           (500, .str "Error processing request: ValidationError: model is required")) := by
  constructor
  · cases hm : dictGet d "model" with
    | none => simp [convert_responses_to_chat_completions, hm, Except.isOk, Except.toBool]
    | some mv => simp [convert_responses_to_chat_completions, hm, Except.isOk, Except.toBool]
  · intro hm enable cache backend
    have h2 : dictGet (create_response_inject_pre enable cache d) "model" = none := by
      rw [inject_pre_preserves_model]; exact hm
    simp [create_response_result, create_response_outbound,
      convert_responses_to_chat_completions, h2]

/-- Witness for C6: a request whose only content is an unknown input item
and no `model`. -/
theorem C6_witness :
    create_response_result true [] [("input", JVal.arr [.obj [("type", JVal.str "bogus")]])]
        (.exc "unreachable")
      = (500, .str "Error processing request: ValidationError: model is required") :=
  (C6_validation [("input", JVal.arr [.obj [("type", JVal.str "bogus")]])]).2
    rfl true [] (.exc "unreachable")

/-! ## Claim C8 — round-trip text preservation (modelled translator) -/

theorem convertItem_text (it : JVal) :
    ((convertItem it).map JVal.obj).bind plainMsgText = itemText it := by
  cases ht : (jGet it "type").bind jStr with
  | none =>
    simp only [convertItem, itemText]
    rw [ht]
    rfl
  | some t =>
    simp only [convertItem, itemText]
    rw [ht]
    by_cases h1 : t = "message"
    · subst h1
      simp [plainMsgText, hasKeyJ, jGet, dictGet]
    · by_cases h2 : t = "function_call"
      · subst h2
        simp [plainMsgText, jGet, dictGet, h1]
      · by_cases h3 : t = "function_call_output"
        · subst h3
          simp only [h1, h2, if_false, if_true, reduceIte, Option.map_some,
            Option.bind_some]
          cases hv : jGetD it "output" (.str "") with
          | str c => simp [plainMsgText, jGet, dictGet, hasKeyJ]
          | null => simp [plainMsgText, jGet, dictGet]
          | bool b => simp [plainMsgText, jGet, dictGet]
          | num n => simp [plainMsgText, jGet, dictGet]
          | arr xs => simp [plainMsgText, jGet, dictGet]
          | obj kvs => simp [plainMsgText, jGet, dictGet]
        · simp [h1, h2, h3]

theorem filterMap_convert_text (items : List JVal) :
    (items.filterMap (fun it => (convertItem it).map JVal.obj)).filterMap plainMsgText
      = items.filterMap itemText := by
  induction items with
  | nil => rfl
  | cons it rest ih =>
    have hb := convertItem_text it
    cases hc : convertItem it with
    | none =>
      have hb2 : itemText it = none := by rw [← hb, hc]; rfl
      simp [List.filterMap_cons, hc, hb2, ih]
    | some m =>
      have hb2 : itemText it = plainMsgText (.obj m) := by rw [← hb, hc]; rfl
      cases hp : plainMsgText (.obj m) with
      | none =>
        simp [List.filterMap_cons, hc, hp, hb2, ih]
      | some c =>
        simp [List.filterMap_cons, hc, hp, hb2, ih]

theorem inject_pre_empty_cache (enable : Bool) (d : Dict) :
    create_response_inject_pre enable [] d = d := by
  simp [create_response_inject_pre]

theorem inject_post_empty_cache (enable : Bool) (cr : Dict) :
    create_response_inject_post enable [] cr = cr := by
  simp [create_response_inject_post]

theorem finalize_preserves (x : Dict) (k : String) (h : k ≠ "tool_choice") :
    dictGet (finalizeToolChoice x) k = dictGet x k := by
  have hne : "tool_choice" ≠ k := fun hh => h hh.symm
  simp only [finalizeToolChoice]
  split
  · rw [dictGet_dictPop_ne _ _ _ hne, dictGet_dictPop_ne _ _ _ hne]
  · rw [dictGet_dictPop_ne _ _ _ hne]

theorem convert_messages (d : Dict) (mv : JVal) (hm : dictGet d "model" = some mv) :
    ∃ cr0, convert_responses_to_chat_completions d = .ok cr0 ∧
      dictGet cr0 "messages" = some (.arr ((jArr (dictGetD d "input" (.arr []))).filterMap
        (fun it => (convertItem it).map JVal.obj))) := by
  simp only [convert_responses_to_chat_completions, hm]
  cases ht2 : dictGet d "tools" <;> cases htc : dictGet d "tool_choice" <;>
    cases hst : dictGet d "stream" <;>
    · refine ⟨_, rfl, ?_⟩
      repeat rw [dictGet_dictSet_ne _ _ _ _ (by decide)]
      rfl

set_option linter.unusedVariables false in
/-- C8: with no client tools and an empty registry cache, the modelled
translator preserves message text content through both directions: the
plain chat messages of the outbound request carry exactly the Message
items' texts, and a backend text response converts back to exactly one
text output item carrying the same string.  (Text preservation holds for
every request; the no-tools hypothesis restates the claim's setting.) -/
theorem C8_roundtrip (enable : Bool) (d cr : Dict) (s : String)
    (hnt : dictGet d "tools" = none)
    (hok : create_response_outbound enable [] d = .ok cr) :
    plainMessageTexts cr = inputTexts d ∧
    ∀ rd, convert_chat_completions_to_responses (chatTextResponse s) cr = .ok rd →
      outputTexts rd = [s] := by
  rw [create_response_outbound, inject_pre_empty_cache] at hok
  cases hm : dictGet d "model" with
  | none =>
    simp only [convert_responses_to_chat_completions, hm] at hok
    exact absurd hok (by simp)
  | some mv =>
    obtain ⟨cr0, hc0, hmess0⟩ := convert_messages d mv hm
    rw [hc0] at hok
    simp only [inject_post_empty_cache] at hok
    have hcr : finalizeToolChoice cr0 = cr := by simpa using hok
    have hmess : dictGet cr "messages" = some (.arr
        ((jArr (dictGetD d "input" (.arr []))).filterMap
          (fun it => (convertItem it).map JVal.obj))) := by
      rw [← hcr, finalize_preserves _ _ (by decide), hmess0]
    constructor
    · rw [plainMessageTexts, dictGetD, hmess]
      show ((jArr (dictGetD d "input" (.arr []))).filterMap
          (fun it => (convertItem it).map JVal.obj)).filterMap plainMsgText = inputTexts d
      rw [filterMap_convert_text]
      rfl
    · intro rd hrd
      have h2 : outputTexts rd =
          outputTexts ((convert_chat_completions_to_responses
            (chatTextResponse s) cr).toOption.getD []) := by
        rw [hrd]; rfl
      rw [h2]
      rfl

/-- Witness for C8: a request with one user message "Hello" and a backend
answer "Hi". -/
theorem C8_witness :
    plainMessageTexts
        [("model", JVal.str "m"),
         ("messages", JVal.arr [JVal.obj [("role", JVal.str "user"),
           ("content", JVal.str "Hello")]])]
      = inputTexts
        [("model", JVal.str "m"),
         ("input", JVal.arr [JVal.obj [("type", JVal.str "message"),
           ("role", JVal.str "user"),
           ("content", JVal.arr [JVal.obj [("type", JVal.str "input_text"),
             ("text", JVal.str "Hello")]])]])] ∧
    outputTexts
        [("model", JVal.str "m"), ("status", JVal.str "completed"),
         ("output", JVal.arr [JVal.obj [("type", JVal.str "message"),
           ("role", JVal.str "assistant"),
           ("content", JVal.arr [JVal.obj [("type", JVal.str "output_text"),
             ("text", JVal.str "Hi")]])]]),
         ("usage", JVal.obj [("input_tokens", JVal.num 0),
           ("output_tokens", JVal.num 0), ("total_tokens", JVal.num 0)])]
      = ["Hi"] :=
  ⟨(C8_roundtrip true
      [("model", JVal.str "m"),
       ("input", JVal.arr [JVal.obj [("type", JVal.str "message"),
         ("role", JVal.str "user"),
         ("content", JVal.arr [JVal.obj [("type", JVal.str "input_text"),
           ("text", JVal.str "Hello")]])]])]
      [("model", JVal.str "m"),
       ("messages", JVal.arr [JVal.obj [("role", JVal.str "user"),
         ("content", JVal.str "Hello")]])]
      "Hi" rfl rfl).1,
   (C8_roundtrip true
      [("model", JVal.str "m"),
       ("input", JVal.arr [JVal.obj [("type", JVal.str "message"),
         ("role", JVal.str "user"),
         ("content", JVal.arr [JVal.obj [("type", JVal.str "input_text"),
           ("text", JVal.str "Hello")]])]])]
      [("model", JVal.str "m"),
       ("messages", JVal.arr [JVal.obj [("role", JVal.str "user"),
         ("content", JVal.str "Hello")]])]
      "Hi" rfl rfl).2
     [("model", JVal.str "m"), ("status", JVal.str "completed"),
      ("output", JVal.arr [JVal.obj [("type", JVal.str "message"),
        ("role", JVal.str "assistant"),
        ("content", JVal.arr [JVal.obj [("type", JVal.str "output_text"),
          ("text", JVal.str "Hi")]])]]),
      ("usage", JVal.obj [("input_tokens", JVal.num 0),
        ("output_tokens", JVal.num 0), ("total_tokens", JVal.num 0)])]
     rfl⟩

/-! ## Claim C9 — stream reconstructor invariants (modelled) -/

theorem addedCount_append (idx : Nat) (a b : List Ev) :
    addedCount idx (a ++ b) = addedCount idx a + addedCount idx b :=
  List.countP_append _ _ _

theorem deltaCount_append (idx : Nat) (a b : List Ev) :
    deltaCount idx (a ++ b) = deltaCount idx a + deltaCount idx b :=
  List.countP_append _ _ _

theorem doneCount_append (idx : Nat) (a b : List Ev) :
    doneCount idx (a ++ b) = doneCount idx a + doneCount idx b :=
  List.countP_append _ _ _

theorem argConcat_append (idx : Nat) (a b : List Ev) :
    argConcat idx (a ++ b) = argConcat idx a ++ argConcat idx b := by
  induction a with
  | nil => rfl
  | cons e rest ih =>
    cases e with
    | argDelta j s =>
      have h1 : argConcat idx ((Ev.argDelta j s :: rest) ++ b)
          = (if j = idx then s else "") ++ argConcat idx (rest ++ b) := rfl
      have h2 : argConcat idx (Ev.argDelta j s :: rest)
          = (if j = idx then s else "") ++ argConcat idx rest := rfl
      rw [h1, h2, ih, String.append_assoc]
    | started => exact ih
    | textDelta s => exact ih
    | itemAdded j k => exact ih
    | itemDone j s => exact ih
    | textDone s => exact ih
    | completed => exact ih

theorem argConcat_eq_empty (idx : Nat) (l : List Ev)
    (h : ∀ e ∈ l, untouched idx e = true) : argConcat idx l = "" := by
  induction l with
  | nil => rfl
  | cons e rest ih =>
    have he : untouched idx e = true := h e (List.mem_cons_self _ _)
    have hr := ih (fun x hx => h x (List.mem_cons_of_mem _ hx))
    cases e with
    | argDelta j s =>
      have hj : ¬ j = idx := by simpa [untouched] using he
      show (if j = idx then s else "") ++ argConcat idx rest = ""
      rw [if_neg hj, hr]
      rfl
    | started => exact hr
    | textDelta s => exact hr
    | itemAdded j k => exact hr
    | itemDone j s => exact hr
    | textDone s => exact hr
    | completed => exact hr

theorem untouched_counts (idx : Nat) (l : List Ev)
    (h : ∀ e ∈ l, untouched idx e = true) :
    addedCount idx l = 0 ∧ deltaCount idx l = 0 ∧ doneCount idx l = 0 ∧
      argConcat idx l = "" := by
  refine ⟨?_, ?_, ?_, argConcat_eq_empty idx l h⟩
  · rw [addedCount, List.countP_eq_zero]
    intro e he
    have := h e he
    cases e <;> simp_all [untouched]
  · rw [deltaCount, List.countP_eq_zero]
    intro e he
    have := h e he
    cases e <;> simp_all [untouched]
  · rw [doneCount, List.countP_eq_zero]
    intro e he
    have := h e he
    cases e <;> simp_all [untouched]

theorem countP_cons_zero {α : Type} {p : α → Bool} {e : α} {rest : List α}
    (h : List.countP p (e :: rest) = 0) : List.countP p rest = 0 := by
  rw [List.countP_cons] at h
  omega

theorem countP_cons_zero_head {α : Type} {p : α → Bool} {e : α} {rest : List α}
    (h : List.countP p (e :: rest) = 0) : p e = false := by
  rw [List.countP_cons] at h
  by_cases hp : p e = true
  · rw [if_pos hp] at h
    omega
  · simpa using hp

theorem countP_cons_pos {α : Type} {p : α → Bool} {e : α} {rest : List α}
    (h : 1 ≤ List.countP p (e :: rest)) (hp : p e = false) :
    1 ≤ List.countP p rest := by
  rw [List.countP_cons, hp] at h
  simpa using h

theorem ndba_append_clean (idx : Nat) (a b : List Ev)
    (h1 : addedCount idx a = 0) (h2 : deltaCount idx a = 0) :
    noDeltaBeforeAdded idx (a ++ b) = noDeltaBeforeAdded idx b := by
  induction a with
  | nil => rfl
  | cons e rest ih =>
    rw [addedCount] at h1
    rw [deltaCount] at h2
    have ihr := ih (countP_cons_zero h1) (countP_cons_zero h2)
    cases e with
    | itemAdded j k =>
      have hj : ¬ j = idx := by simpa using countP_cons_zero_head h1
      show (if j = idx then true else noDeltaBeforeAdded idx (rest ++ b)) = _
      rw [if_neg hj]
      exact ihr
    | argDelta j s =>
      have hj : ¬ j = idx := by simpa using countP_cons_zero_head h2
      show (if j = idx then false else noDeltaBeforeAdded idx (rest ++ b)) = _
      rw [if_neg hj]
      exact ihr
    | started => exact ihr
    | textDelta s => exact ihr
    | itemDone j s => exact ihr
    | textDone s => exact ihr
    | completed => exact ihr

theorem ndba_true_of_clean (idx : Nat) (a : List Ev)
    (h1 : addedCount idx a = 0) (h2 : deltaCount idx a = 0) :
    noDeltaBeforeAdded idx a = true := by
  have h := ndba_append_clean idx a [] h1 h2
  simpa using h

theorem ndba_append_added (idx : Nat) (a b : List Ev)
    (h1 : noDeltaBeforeAdded idx a = true) (h2 : 1 ≤ addedCount idx a) :
    noDeltaBeforeAdded idx (a ++ b) = true := by
  induction a with
  | nil => simp [addedCount] at h2
  | cons e rest ih =>
    rw [addedCount] at h2
    cases e with
    | itemAdded j k =>
      by_cases hj : j = idx
      · show (if j = idx then true else noDeltaBeforeAdded idx (rest ++ b)) = true
        rw [if_pos hj]
      · have h1r : noDeltaBeforeAdded idx rest = true := by
          have hc : noDeltaBeforeAdded idx (Ev.itemAdded j k :: rest)
              = noDeltaBeforeAdded idx rest := by
            show (if j = idx then true else noDeltaBeforeAdded idx rest) = _
            rw [if_neg hj]
          rw [hc] at h1
          exact h1
        have h2r : 1 ≤ addedCount idx rest :=
          countP_cons_pos h2 (by simpa using hj)
        show (if j = idx then true else noDeltaBeforeAdded idx (rest ++ b)) = true
        rw [if_neg hj]
        exact ih h1r h2r
    | argDelta j s =>
      by_cases hj : j = idx
      · exfalso
        have hc : noDeltaBeforeAdded idx (Ev.argDelta j s :: rest) = false := by
          show (if j = idx then false else noDeltaBeforeAdded idx rest) = false
          rw [if_pos hj]
        rw [hc] at h1
        exact absurd h1 (by simp)
      · have h1r : noDeltaBeforeAdded idx rest = true := by
          have hc : noDeltaBeforeAdded idx (Ev.argDelta j s :: rest)
              = noDeltaBeforeAdded idx rest := by
            show (if j = idx then false else noDeltaBeforeAdded idx rest) = _
            rw [if_neg hj]
          rw [hc] at h1
          exact h1
        have h2r : 1 ≤ addedCount idx rest := countP_cons_pos h2 rfl
        show (if j = idx then false else noDeltaBeforeAdded idx (rest ++ b)) = true
        rw [if_neg hj]
        exact ih h1r h2r
    | started => exact ih h1 (countP_cons_pos h2 rfl)
    | textDelta s => exact ih h1 (countP_cons_pos h2 rfl)
    | itemDone j s => exact ih h1 (countP_cons_pos h2 rfl)
    | textDone s => exact ih h1 (countP_cons_pos h2 rfl)
    | completed => exact ih h1 (countP_cons_pos h2 rfl)

theorem not_mem_itemDone (idx : Nat) (evs : List Ev)
    (h : doneCount idx evs = 0) (a : String) : Ev.itemDone idx a ∉ evs := by
  intro hm
  rw [doneCount, List.countP_eq_zero] at h
  have := h _ hm
  simp at this

theorem lookupAcc_eq_none_iff (accs : List (Nat × String)) (idx : Nat) :
    lookupAcc accs idx = none ↔ idx ∉ accs.map Prod.fst := by
  induction accs with
  | nil => simp [lookupAcc]
  | cons p rest ih =>
    rw [lookupAcc, List.map_cons]
    by_cases hp : p.1 = idx
    · constructor
      · intro h
        rw [if_pos hp] at h
        exact absurd h (by simp)
      · intro h
        exact absurd (by rw [hp]; exact List.mem_cons_self _ _) h
    · rw [if_neg hp]
      constructor
      · intro h hm
        rcases List.mem_cons.mp hm with he | hr
        · exact hp he.symm
        · exact (ih.mp h) hr
      · intro h
        exact ih.mpr (fun hr => h (List.mem_cons_of_mem _ hr))

theorem lookupAcc_append_self (accs : List (Nat × String)) (idx : Nat) (s : String)
    (h : lookupAcc accs idx = none) :
    lookupAcc (accs ++ [(idx, s)]) idx = some s := by
  induction accs with
  | nil => simp [lookupAcc]
  | cons p rest ih =>
    rw [lookupAcc] at h
    by_cases hp : p.1 = idx
    · rw [if_pos hp] at h
      exact absurd h (by simp)
    · rw [if_neg hp] at h
      show (if p.1 = idx then some p.2 else lookupAcc (rest ++ [(idx, s)]) idx) = some s
      rw [if_neg hp]
      exact ih h

theorem lookupAcc_append_ne (accs : List (Nat × String)) (idx j : Nat) (s : String)
    (h : j ≠ idx) : lookupAcc (accs ++ [(idx, s)]) j = lookupAcc accs j := by
  induction accs with
  | nil => simp [lookupAcc, Ne.symm h]
  | cons p rest ih =>
    by_cases hp : p.1 = j
    · show (if p.1 = j then some p.2 else _) = _
      rw [if_pos hp, lookupAcc, if_pos hp]
    · show (if p.1 = j then some p.2 else lookupAcc (rest ++ [(idx, s)]) j) = _
      rw [if_neg hp, lookupAcc, if_neg hp]
      exact ih

theorem lookupAcc_map_upd_self (accs : List (Nat × String)) (idx : Nat) (frag : String) :
    lookupAcc (accs.map (fun q => if q.1 = idx then (q.1, q.2 ++ frag) else q)) idx
      = (lookupAcc accs idx).map (fun b => b ++ frag) := by
  induction accs with
  | nil => simp [lookupAcc]
  | cons p rest ih =>
    by_cases hp : p.1 = idx
    · simp [lookupAcc, hp]
    · simp only [List.map_cons, if_neg hp]
      show (if p.1 = idx then some p.2 else _) = _
      rw [if_neg hp, lookupAcc, if_neg hp]
      exact ih

theorem lookupAcc_map_upd_ne (accs : List (Nat × String)) (idx j : Nat) (frag : String)
    (h : j ≠ idx) :
    lookupAcc (accs.map (fun q => if q.1 = idx then (q.1, q.2 ++ frag) else q)) j
      = lookupAcc accs j := by
  induction accs with
  | nil => simp [lookupAcc]
  | cons p rest ih =>
    by_cases hp : p.1 = idx
    · have hpj : ¬ p.1 = j := by rw [hp]; exact fun hh => h hh.symm
      simp only [List.map_cons, if_pos hp]
      show (if p.1 = j then _ else _) = _
      rw [if_neg hpj, lookupAcc, if_neg hpj]
      exact ih
    · simp only [List.map_cons, if_neg hp]
      by_cases hpj : p.1 = j
      · show (if p.1 = j then some p.2 else _) = _
        rw [if_pos hpj, lookupAcc, if_pos hpj]
      · show (if p.1 = j then some p.2 else _) = _
        rw [if_neg hpj, lookupAcc, if_neg hpj]
        exact ih

theorem map_upd_keys (accs : List (Nat × String)) (idx : Nat) (frag : String) :
    (accs.map (fun q => if q.1 = idx then (q.1, q.2 ++ frag) else q)).map Prod.fst
      = accs.map Prod.fst := by
  induction accs with
  | nil => rfl
  | cons p rest ih =>
    by_cases hp : p.1 = idx
    · simp [hp, ih]
    · simp [hp, ih]

theorem lookupAcc_of_mem (accs : List (Nat × String)) (idx : Nat) (a : String)
    (hnd : (accs.map Prod.fst).Nodup) (hm : (idx, a) ∈ accs) :
    lookupAcc accs idx = some a := by
  induction accs with
  | nil => exact absurd hm (List.not_mem_nil _)
  | cons p rest ih =>
    rcases List.mem_cons.mp hm with he | hr
    · rw [← he]
      show (if idx = idx then some a else _) = some a
      rw [if_pos rfl]
    · have hk : idx ∈ rest.map Prod.fst := List.mem_map.mpr ⟨(idx, a), hr, rfl⟩
      have hp : ¬ p.1 = idx := by
        intro hh
        have := (List.nodup_cons.mp hnd).1
        rw [hh] at this
        exact this hk
      show (if p.1 = idx then some p.2 else lookupAcc rest idx) = some a
      rw [if_neg hp]
      exact ih (List.nodup_cons.mp hnd).2 hr

theorem evOk_append_untouched (idx : Nat) (evs batch : List Ev) (acc : Option String)
    (hb : ∀ e ∈ batch, untouched idx e = true) (h : EvOk idx evs acc) :
    EvOk idx (evs ++ batch) acc := by
  obtain ⟨hb1, hb2, hb3, hb4⟩ := untouched_counts idx batch hb
  cases acc with
  | none =>
    obtain ⟨h1, h2, h3⟩ := h
    exact ⟨by rw [addedCount_append, h1, hb1],
           by rw [deltaCount_append, h2, hb2],
           by rw [doneCount_append, h3, hb3]⟩
  | some b =>
    obtain ⟨h1, h2, h3, h4⟩ := h
    refine ⟨by rw [addedCount_append, h1, hb1], ?_, ?_,
      by rw [doneCount_append, h4, hb3]⟩
    · exact ndba_append_added idx evs batch h2 (by omega)
    · rw [argConcat_append, h3, hb4, String.append_empty]

theorem accInv_append_neutral (accs : List (Nat × String)) (evs batch : List Ev)
    (hb : ∀ e ∈ batch, neutralEv e = true) (h : AccInv accs evs) :
    AccInv accs (evs ++ batch) := by
  refine ⟨h.1, fun idx => ?_⟩
  refine evOk_append_untouched idx evs batch _ (fun e he => ?_) (h.2 idx)
  have := hb e he
  cases e <;> simp_all [untouched, neutralEv]

theorem argConcat_empty_of_delta_zero (idx : Nat) (l : List Ev)
    (h : deltaCount idx l = 0) : argConcat idx l = "" := by
  induction l with
  | nil => rfl
  | cons e rest ih =>
    rw [deltaCount] at h
    have ihr := ih (countP_cons_zero h)
    cases e with
    | argDelta j s =>
      have hj : ¬ j = idx := by simpa using countP_cons_zero_head h
      show (if j = idx then s else "") ++ argConcat idx rest = ""
      rw [if_neg hj, ihr, String.append_empty]
    | started => exact ihr
    | textDelta s => exact ihr
    | itemAdded j k => exact ihr
    | itemDone j s => exact ihr
    | textDone s => exact ihr
    | completed => exact ihr

theorem toolStep_accInv (st : SState) (td : ToolDelta) (evs : List Ev)
    (h : AccInv st.accs evs) :
    AccInv (toolStep st td).1.accs (evs ++ (toolStep st td).2) ∧
    (toolStep st td).1.finished = st.finished := by
  obtain ⟨hnd, hok⟩ := h
  cases hl : lookupAcc st.accs td.idx with
  | none =>
    have hts : toolStep st td =
        ({ st with accs := st.accs ++ [(td.idx, td.args)], nextOut := st.nextOut + 1 },
         [.itemAdded td.idx st.nextOut, .argDelta td.idx td.args]) := by
      rw [toolStep, hl]
    rw [hts]
    refine ⟨⟨?_, ?_⟩, rfl⟩
    · show ((st.accs ++ [(td.idx, td.args)]).map Prod.fst).Nodup
      rw [List.map_append]
      refine List.Nodup.append hnd (by simp) ?_
      intro a ha hb
      have : a = td.idx := by simpa using hb
      subst this
      exact ((lookupAcc_eq_none_iff st.accs td.idx).mp hl) ha
    · intro idx
      by_cases hij : idx = td.idx
      · subst hij
        show EvOk td.idx (evs ++ _) (lookupAcc (st.accs ++ [(td.idx, td.args)]) td.idx)
        rw [lookupAcc_append_self st.accs td.idx td.args hl]
        have h0 := hok td.idx
        rw [hl] at h0
        obtain ⟨h1, h2, h3⟩ := h0
        refine ⟨?_, ?_, ?_, ?_⟩
        · rw [addedCount_append, h1]
          simp [addedCount, List.countP_cons]
        · rw [ndba_append_clean td.idx evs _ h1 h2]
          show (if td.idx = td.idx then true else _) = true
          rw [if_pos rfl]
        · rw [argConcat_append, argConcat_empty_of_delta_zero td.idx evs h2,
            String.empty_append]
          show (if td.idx = td.idx then td.args else "") ++ argConcat td.idx [] = td.args
          rw [if_pos rfl]
          exact String.append_empty _
        · rw [doneCount_append, h3]
          simp [doneCount, List.countP_cons]
      · show EvOk idx (evs ++ _) (lookupAcc (st.accs ++ [(td.idx, td.args)]) idx)
        rw [lookupAcc_append_ne st.accs td.idx idx td.args hij]
        refine evOk_append_untouched idx evs _ _ ?_ (hok idx)
        intro e he
        rcases List.mem_cons.mp he with he1 | he2
        · subst he1
          simp [untouched]
          exact fun hh => hij hh.symm
        · have : e = Ev.argDelta td.idx td.args := by simpa using he2
          subst this
          simp [untouched]
          exact fun hh => hij hh.symm
  | some b =>
    have hts : toolStep st td =
        ({ st with accs := (st.accs.map
            (fun q => if q.1 = td.idx then (q.1, q.2 ++ td.args) else q)) },
         [.argDelta td.idx td.args]) := by
      rw [toolStep, hl]
    rw [hts]
    refine ⟨⟨?_, ?_⟩, rfl⟩
    · show ((st.accs.map _).map Prod.fst).Nodup
      rw [map_upd_keys]
      exact hnd
    · intro idx
      by_cases hij : idx = td.idx
      · subst hij
        show EvOk td.idx (evs ++ _) (lookupAcc (st.accs.map _) td.idx)
        rw [lookupAcc_map_upd_self st.accs td.idx td.args, hl]
        have h0 := hok td.idx
        rw [hl] at h0
        obtain ⟨h1, h2, h3, h4⟩ := h0
        refine ⟨?_, ?_, ?_, ?_⟩
        · rw [addedCount_append, h1]
          simp [addedCount, List.countP_cons]
        · exact ndba_append_added td.idx evs _ h2 (by omega)
        · rw [argConcat_append, h3]
          show b ++ ((if td.idx = td.idx then td.args else "") ++ argConcat td.idx []) = b ++ td.args
          rw [if_pos rfl]
          show b ++ (td.args ++ "") = b ++ td.args
          rw [String.append_empty]
        · rw [doneCount_append, h4]
          simp [doneCount, List.countP_cons]
      · show EvOk idx (evs ++ _) (lookupAcc (st.accs.map _) idx)
        rw [lookupAcc_map_upd_ne st.accs td.idx idx td.args hij]
        refine evOk_append_untouched idx evs _ _ ?_ (hok idx)
        intro e he
        have : e = Ev.argDelta td.idx td.args := by simpa using he
        subst this
        simp [untouched]
        exact fun hh => hij hh.symm

theorem toolSteps_accInv (tds : List ToolDelta) (st : SState) (evs : List Ev)
    (h : AccInv st.accs evs) :
    AccInv (toolSteps st tds).1.accs (evs ++ (toolSteps st tds).2) ∧
    (toolSteps st tds).1.finished = st.finished := by
  induction tds generalizing st evs with
  | nil =>
    constructor
    · show AccInv st.accs (evs ++ [])
      rw [List.append_nil]
      exact h
    · rfl
  | cons td tds ih =>
    have h1 := toolStep_accInv st td evs h
    have h2 := ih (toolStep st td).1 (evs ++ (toolStep st td).2) h1.1
    constructor
    · show AccInv (toolSteps (toolStep st td).1 tds).1.accs
        (evs ++ ((toolStep st td).2 ++ (toolSteps (toolStep st td).1 tds).2))
      rw [← List.append_assoc]
      exact h2.1
    · show (toolSteps (toolStep st td).1 tds).1.finished = st.finished
      rw [h2.2, h1.2]

theorem startPart_spec (st : SState) :
    (startPart st).1.accs = st.accs ∧ (startPart st).1.finished = st.finished ∧
    ∀ e ∈ (startPart st).2, neutralEv e = true := by
  rw [startPart]
  split
  · exact ⟨rfl, rfl, by simp⟩
  · exact ⟨rfl, rfl, by simp [neutralEv]⟩

theorem textPart_spec (st : SState) (t? : Option String) :
    (textPart st t?).1.accs = st.accs ∧ (textPart st t?).1.finished = st.finished ∧
    ∀ e ∈ (textPart st t?).2, neutralEv e = true := by
  cases t? with
  | none => exact ⟨rfl, rfl, by simp [textPart]⟩
  | some t =>
    rw [textPart]
    split
    · exact ⟨rfl, rfl, by simp⟩
    · exact ⟨rfl, rfl, by simp [neutralEv]⟩

theorem finish_batch_counts (idx : Nat) (st : SState) (f : String) :
    addedCount idx (finishPart st (some f)).2 = 0 ∧
    deltaCount idx (finishPart st (some f)).2 = 0 := by
  constructor
  · rw [addedCount, List.countP_eq_zero]
    intro e he
    rw [finishPart] at he
    simp only at he
    rcases List.mem_append.mp he with he1 | he2
    · rcases List.mem_append.mp he1 with he3 | he4
      · split at he3
        · exact absurd he3 (List.not_mem_nil _)
        · have : e = Ev.textDone st.textBuf := by simpa using he3
          subst this
          simp
      · obtain ⟨p, _, hp⟩ := List.mem_map.mp he4
        rw [← hp]
        simp
    · have : e = Ev.completed := by simpa using he2
      subst this
      simp
  · rw [deltaCount, List.countP_eq_zero]
    intro e he
    rw [finishPart] at he
    simp only at he
    rcases List.mem_append.mp he with he1 | he2
    · rcases List.mem_append.mp he1 with he3 | he4
      · split at he3
        · exact absurd he3 (List.not_mem_nil _)
        · have : e = Ev.textDone st.textBuf := by simpa using he3
          subst this
          simp
      · obtain ⟨p, _, hp⟩ := List.mem_map.mp he4
        rw [← hp]
        simp
    · have : e = Ev.completed := by simpa using he2
      subst this
      simp

theorem finishPart_goal (st : SState) (f : String) (evs : List Ev)
    (h : AccInv st.accs evs) :
    ∀ idx, StreamGoal idx (evs ++ (finishPart st (some f)).2) := by
  intro idx
  obtain ⟨hnd, hok⟩ := h
  obtain ⟨hb1, hb2⟩ := finish_batch_counts idx st f
  have hbarg : argConcat idx (finishPart st (some f)).2 = "" :=
    argConcat_empty_of_delta_zero idx _ hb2
  have hmem : ∀ a, Ev.itemDone idx a ∈ (finishPart st (some f)).2 →
      (idx, a) ∈ st.accs := by
    intro a hm
    rw [finishPart] at hm
    simp only at hm
    rcases List.mem_append.mp hm with hm1 | hm2
    · rcases List.mem_append.mp hm1 with hm3 | hm4
      · split at hm3
        · exact absurd hm3 (List.not_mem_nil _)
        · simp at hm3
      · obtain ⟨p, hp, hpe⟩ := List.mem_map.mp hm4
        have h1 : p.1 = idx ∧ p.2 = a := by
          constructor
          · exact (Ev.itemDone.injEq _ _ _ _).mp hpe.symm |>.1.symm
          · exact (Ev.itemDone.injEq _ _ _ _).mp hpe.symm |>.2.symm
        have : p = (idx, a) := Prod.ext h1.1 h1.2
        rw [← this]
        exact hp
    · simp at hm2
  cases hl : lookupAcc st.accs idx with
  | some b =>
    have h0 := hok idx
    rw [hl] at h0
    obtain ⟨h1, h2, h3, h4⟩ := h0
    refine ⟨?_, ?_, ?_⟩
    · rw [addedCount_append, h1, hb1]
    · exact ndba_append_added idx evs _ h2 (by omega)
    · intro a hm
      rcases List.mem_append.mp hm with hme | hmb
      · exact absurd hme (not_mem_itemDone idx evs h4 a)
      · have hpm := hmem a hmb
        have := lookupAcc_of_mem st.accs idx a hnd hpm
        rw [hl] at this
        have hba : b = a := by simpa using this
        rw [argConcat_append, h3, hbarg, String.append_empty]
        exact hba
  | none =>
    have h0 := hok idx
    rw [hl] at h0
    obtain ⟨h1, h2, h3⟩ := h0
    refine ⟨?_, ?_, ?_⟩
    · rw [addedCount_append, h1, hb1]
      omega
    · rw [ndba_append_clean idx evs _ h1 h2]
      exact ndba_true_of_clean idx _ hb1 hb2
    · intro a hm
      rcases List.mem_append.mp hm with hme | hmb
      · exact absurd hme (not_mem_itemDone idx evs h3 a)
      · have hpm := hmem a hmb
        have hk : idx ∈ st.accs.map Prod.fst := List.mem_map.mpr ⟨(idx, a), hpm, rfl⟩
        exact absurd hk ((lookupAcc_eq_none_iff st.accs idx).mp hl)

theorem accInv_goal (accs : List (Nat × String)) (evs : List Ev)
    (h : AccInv accs evs) : ∀ idx, StreamGoal idx evs := by
  intro idx
  obtain ⟨hnd, hok⟩ := h
  cases hl : lookupAcc accs idx with
  | some b =>
    have h0 := hok idx
    rw [hl] at h0
    obtain ⟨h1, h2, _, h4⟩ := h0
    exact ⟨by omega, h2, fun a hm => absurd hm (not_mem_itemDone idx evs h4 a)⟩
  | none =>
    have h0 := hok idx
    rw [hl] at h0
    obtain ⟨h1, h2, h3⟩ := h0
    exact ⟨by omega, ndba_true_of_clean idx evs h1 h2,
      fun a hm => absurd hm (not_mem_itemDone idx evs h3 a)⟩

theorem chunkStep_inv (st : SState) (c : BChunk) (evs : List Ev)
    (h : StreamInv st evs) :
    StreamInv (chunkStep st c).1 (evs ++ (chunkStep st c).2) := by
  cases hf : st.finished with
  | true =>
    have hc : chunkStep st c = (st, []) := by rw [chunkStep, if_pos hf]
    rw [hc, List.append_nil]
    exact h
  | false =>
    have hgoal0 : AccInv st.accs evs := h.1 hf
    have ha := startPart_spec st
    have ha1 : AccInv (startPart st).1.accs (evs ++ (startPart st).2) := by
      rw [ha.1]
      exact accInv_append_neutral _ _ _ ha.2.2 hgoal0
    have hb := textPart_spec (startPart st).1 c.text
    have hb1 : AccInv (textPart (startPart st).1 c.text).1.accs
        ((evs ++ (startPart st).2) ++ (textPart (startPart st).1 c.text).2) := by
      rw [hb.1]
      exact accInv_append_neutral _ _ _ hb.2.2 ha1
    have hcc := toolSteps_accInv c.tools (textPart (startPart st).1 c.text).1
        ((evs ++ (startPart st).2) ++ (textPart (startPart st).1 c.text).2) hb1
    have hfin3 : (toolSteps (textPart (startPart st).1 c.text).1 c.tools).1.finished
        = false := by
      rw [hcc.2, hb.2.1, ha.2.1, hf]
    have hc : chunkStep st c =
        ((finishPart (toolSteps (textPart (startPart st).1 c.text).1 c.tools).1
            c.finish).1,
          (startPart st).2 ++ (textPart (startPart st).1 c.text).2 ++
          (toolSteps (textPart (startPart st).1 c.text).1 c.tools).2 ++
          (finishPart (toolSteps (textPart (startPart st).1 c.text).1 c.tools).1
            c.finish).2) := by
      rw [chunkStep, if_neg (fun hh => by rw [hf] at hh; exact Bool.noConfusion hh)]
    rw [hc]
    cases hcf : c.finish with
    | none =>
      refine ⟨fun _ => ?_, fun hft => ?_⟩
      · have heq : evs ++ ((startPart st).2 ++ (textPart (startPart st).1 c.text).2 ++
            (toolSteps (textPart (startPart st).1 c.text).1 c.tools).2 ++
            (finishPart (toolSteps (textPart (startPart st).1 c.text).1 c.tools).1
              none).2)
            = ((evs ++ (startPart st).2) ++ (textPart (startPart st).1 c.text).2) ++
              (toolSteps (textPart (startPart st).1 c.text).1 c.tools).2 := by
          show _ ++ (_ ++ _ ++ _ ++ ([] : List Ev)) = _
          simp [List.append_assoc]
        rw [heq]
        exact hcc.1
      · have hft2 : (toolSteps (textPart (startPart st).1 c.text).1 c.tools).1.finished
            = true := hft
        rw [hfin3] at hft2
        exact absurd hft2 (by simp)
    | some f =>
      refine ⟨fun hff => ?_, fun _ => ?_⟩
      · have hft2 : (finishPart (toolSteps (textPart (startPart st).1 c.text).1
            c.tools).1 (some f)).1.finished = true := rfl
        rw [hft2] at hff
        exact absurd hff (by simp)
      · have hg := finishPart_goal
          (toolSteps (textPart (startPart st).1 c.text).1 c.tools).1 f
          (((evs ++ (startPart st).2) ++ (textPart (startPart st).1 c.text).2) ++
            (toolSteps (textPart (startPart st).1 c.text).1 c.tools).2) hcc.1
        have heq : evs ++ ((startPart st).2 ++ (textPart (startPart st).1 c.text).2 ++
            (toolSteps (textPart (startPart st).1 c.text).1 c.tools).2 ++
            (finishPart (toolSteps (textPart (startPart st).1 c.text).1 c.tools).1
              (some f)).2)
            = (((evs ++ (startPart st).2) ++ (textPart (startPart st).1 c.text).2) ++
              (toolSteps (textPart (startPart st).1 c.text).1 c.tools).2) ++
              (finishPart (toolSteps (textPart (startPart st).1 c.text).1 c.tools).1
                (some f)).2 := by
          simp [List.append_assoc]
        rw [heq]
        exact hg

theorem runStream_inv (cs : List BChunk) (st : SState) (evs : List Ev)
    (h : StreamInv st evs) :
    StreamInv (runStream st evs cs).1 (runStream st evs cs).2 := by
  induction cs generalizing st evs with
  | nil => exact h
  | cons c cs ih => exact ih _ _ (chunkStep_inv st c evs h)

theorem streamInv_init : StreamInv {} [] := by
  refine ⟨fun _ => ⟨by simp, fun idx => ?_⟩, fun hft => absurd hft (by simp)⟩
  show EvOk idx [] (lookupAcc [] idx)
  exact ⟨rfl, rfl, rfl⟩

/-- C9: for every backend chunk sequence, the modelled reconstructor emits
at most one item-added event per backend index, never emits an
argument-delta for an index before that index's item-added event, and the
concatenation in emission order of all argument-delta fragments for an
index equals the payload of that index's item-done event. -/
theorem C9_stream_reconstruction (cs : List BChunk) (idx : Nat) :
    addedCount idx (process_chat_completions_stream cs) ≤ 1 ∧
    noDeltaBeforeAdded idx (process_chat_completions_stream cs) = true ∧
    ∀ a, Ev.itemDone idx a ∈ process_chat_completions_stream cs →
      argConcat idx (process_chat_completions_stream cs) = a := by
  have h := runStream_inv cs {} [] streamInv_init
  rw [process_chat_completions_stream]
  cases hf : (runStream {} [] cs).1.finished with
  | true => exact h.2 hf idx
  | false => exact accInv_goal _ _ (h.1 hf) idx

/-- Witness for C9: the spec's synthetic stream — index 0 receives the
fragments of a small JSON object before a tool_calls finish. -/
theorem C9_witness :
    Ev.itemDone 0 "\x7b\"a\":1\x7d" ∈ process_chat_completions_stream
      [{ text := none, tools := [⟨0, "\x7b\"a\":"⟩], finish := none },
       { text := none, tools := [⟨0, "1\x7d"⟩], finish := none },
       { text := none, tools := [], finish := some "tool_calls" }] ∧
    argConcat 0 (process_chat_completions_stream
      [{ text := none, tools := [⟨0, "\x7b\"a\":"⟩], finish := none },
       { text := none, tools := [⟨0, "1\x7d"⟩], finish := none },
       { text := none, tools := [], finish := some "tool_calls" }]) = "\x7b\"a\":1\x7d" :=
  ⟨by decide,
   (C9_stream_reconstruction
      [{ text := none, tools := [⟨0, "\x7b\"a\":"⟩], finish := none },
       { text := none, tools := [⟨0, "1\x7d"⟩], finish := none },
       { text := none, tools := [], finish := some "tool_calls" }] 0).2.2
     "\x7b\"a\":1\x7d" (by decide)⟩

/-! ## Claim C1 — merged tool list: no duplicates, client precedence -/

theorem jEq_str (a b : String) : jEq (.str a) (.str b) = (a == b) := by
  simp [jEq]

theorem jvalMem_str (s : String) (l : List JVal)
    (hl : ∀ v ∈ l, ∃ u, v = JVal.str u) :
    jvalMem (.str s) l = true ↔ JVal.str s ∈ l := by
  induction l with
  | nil => simp [jvalMem]
  | cons v rest ih =>
    obtain ⟨u, hu⟩ := hl v (List.mem_cons_self _ _)
    subst hu
    have ihr := ih (fun x hx => hl x (List.mem_cons_of_mem _ hx))
    rw [jvalMem, List.any_cons]
    by_cases hsu : s = u
    · subst hsu
      simp [jEq_str]
    · rw [jEq_str]
      constructor
      · intro hh
        rcases Bool.or_eq_true_iff.mp hh with h1 | h2
        · exact absurd (by simpa using h1) hsu
        · exact List.mem_cons_of_mem _ (ihr.mp h2)
      · intro hh
        rcases List.mem_cons.mp hh with h1 | h2
        · exact absurd (show s = u by simpa using h1) hsu
        · have hmem := ihr.mpr h2
          rw [jvalMem] at hmem
          rw [hmem]
          simp

theorem merged_names_ok (cacheNames exNames : List JVal)
    (hex : ∀ v ∈ exNames, ∃ s, v = JVal.str s)
    (hcn : ∀ v ∈ cacheNames, ∃ s, v = JVal.str s)
    (hexd : exNames.Nodup) (hcd : cacheNames.Nodup) :
    (exNames ++ cacheNames.filter (fun v => !jvalMem v exNames)).Nodup ∧
    ∀ v ∈ cacheNames.filter (fun v => !jvalMem v exNames), v ∉ exNames := by
  have hnotin : ∀ v ∈ cacheNames.filter (fun v => !jvalMem v exNames), v ∉ exNames := by
    intro v hv hmem
    have hv2 := List.mem_filter.mp hv
    obtain ⟨s, hs⟩ := hcn v hv2.1
    subst hs
    have : jvalMem (.str s) exNames = true := (jvalMem_str s exNames hex).mpr hmem
    rw [this] at hv2
    exact absurd hv2.2 (by simp)
  refine ⟨?_, hnotin⟩
  refine List.Nodup.append hexd ?_ ?_
  · exact List.Nodup.sublist (List.filter_sublist _) hcd
  · intro a ha hb
    exact hnotin a hb ha

theorem toolsOf_dictSet (d : Dict) (L : List JVal) :
    toolsOf (dictSet d "tools" (.arr L)) = L := by
  simp [toolsOf, dictGetD, dictGet_dictSet_self, jArr]

theorem chatFuncName_nested (f : Dict) :
    chatFuncName (.obj [("type", .str "function"), ("function", .obj f)])
      = dictGetD f "name" .null := by
  simp [chatFuncName, jGetD, jGet, dictGet, dictGetD]

theorem C1_chat_side (cache : List Dict) (d : Dict)
    (hcn : ∀ t ∈ toolsOf d, ∃ s, chatFuncName t = .str s)
    (hcd : (funcNames (toolsOf d)).Nodup)
    (hmn : ∀ f ∈ cache, ∃ s, dictGetD f "name" .null = .str s)
    (hmd : (cache.map (fun f => dictGetD f "name" .null)).Nodup) :
    ∃ added, toolsOf (handle_chat_completions_inject true cache d) = toolsOf d ++ added ∧
      (funcNames (toolsOf d ++ added)).Nodup ∧
      ∀ t ∈ added, chatFuncName t ∉ funcNames (toolsOf d) := by
  have hex : ∀ v ∈ (toolsOf d).map chatFuncName, ∃ s, v = JVal.str s := by
    intro v hv
    obtain ⟨t, ht, hte⟩ := List.mem_map.mp hv
    obtain ⟨s, hs⟩ := hcn t ht
    exact ⟨s, by rw [← hte, hs]⟩
  have hcn2 : ∀ v ∈ cache.map (fun f => dictGetD f "name" JVal.null),
      ∃ s, v = JVal.str s := by
    intro v hv
    obtain ⟨f, hf, hfe⟩ := List.mem_map.mp hv
    obtain ⟨s, hs⟩ := hmn f hf
    exact ⟨s, by rw [← hfe, hs]⟩
  cases cache with
  | nil =>
    refine ⟨[], ?_, ?_, by simp⟩
    · rw [List.append_nil]
      rfl
    · rw [List.append_nil]
      exact hcd
  | cons f0 rest0 =>
    have hg : (!(f0 :: rest0 : List Dict).isEmpty && true) = true := by simp
    have hinj : handle_chat_completions_inject true (f0 :: rest0) d =
        dictSet d "tools" (.arr (toolsOf d ++
          ((f0 :: rest0).filter
            (fun tool => !jvalMem (dictGetD tool "name" .null)
              ((toolsOf d).map chatFuncName))).map
            (fun tool => .obj [("type", .str "function"), ("function", .obj tool)]))) := by
      rw [handle_chat_completions_inject, if_pos hg]
      rfl
    have hcompose : chatFuncName ∘ (fun tool : Dict => JVal.obj
        [("type", .str "function"), ("function", .obj tool)])
        = (fun f : Dict => dictGetD f "name" JVal.null) :=
      funext fun f => chatFuncName_nested f
    have hmap : (((f0 :: rest0).filter
          (fun tool => !jvalMem (dictGetD tool "name" .null)
            ((toolsOf d).map chatFuncName))).map
          (fun tool => JVal.obj [("type", .str "function"),
            ("function", .obj tool)])).map chatFuncName
        = ((f0 :: rest0).map (fun f => dictGetD f "name" JVal.null)).filter
            (fun v => !jvalMem v ((toolsOf d).map chatFuncName)) := by
      rw [List.map_map, hcompose, List.filter_map]
      rfl
    obtain ⟨hnd, hdisj⟩ := merged_names_ok
      ((f0 :: rest0).map (fun f => dictGetD f "name" JVal.null))
      ((toolsOf d).map chatFuncName) hex hcn2 hcd hmd
    refine ⟨_, by rw [hinj, toolsOf_dictSet], ?_, ?_⟩
    · show ((toolsOf d ++ _).map chatFuncName).Nodup
      rw [List.map_append, hmap]
      exact hnd
    · intro t ht hmem
      have h1 : chatFuncName t ∈ (((f0 :: rest0).filter
          (fun tool => !jvalMem (dictGetD tool "name" .null)
            ((toolsOf d).map chatFuncName))).map
          (fun tool => JVal.obj [("type", .str "function"),
            ("function", .obj tool)])).map chatFuncName :=
        List.mem_map.mpr ⟨t, ht, rfl⟩
      rw [hmap] at h1
      exact hdisj _ h1 hmem

theorem chatFuncName_flatNested (t : JVal) :
    chatFuncName (flatToolToNested t) = flatName t := by
  simp [chatFuncName, flatToolToNested, jGetD, jGet, dictGet, flatName]

theorem postToolName_flatNested (t : JVal) :
    postToolName (flatToolToNested t) = some (flatName t) := by
  simp [postToolName, flatToolToNested, jGet, dictGet, flatName, jGetD]

theorem flatName_mkFlat (f : Dict) :
    flatName (.obj [("type", JVal.str "function"), ("name", dictGetD f "name" .null),
      ("description", dictGetD f "description" .null),
      ("parameters", dictGetD f "parameters" (.obj []))]) = dictGetD f "name" .null := by
  simp [flatName, jGetD, jGet, dictGet]

theorem jvalMem_append (v : JVal) (a b : List JVal) :
    jvalMem v (a ++ b) = (jvalMem v a || jvalMem v b) := by
  simp [jvalMem, List.any_append]

theorem convert_tools (d : Dict) (mv : JVal) (L : List JVal)
    (hm : dictGet d "model" = some mv) (ht : dictGet d "tools" = some (.arr L)) :
    ∃ cr0, convert_responses_to_chat_completions d = .ok cr0 ∧
      dictGet cr0 "tools" = some (.arr (L.map flatToolToNested)) ∧
      dictGet cr0 "functions" = none := by
  simp only [convert_responses_to_chat_completions, hm, ht]
  cases htc : dictGet d "tool_choice" <;> cases hst : dictGet d "stream" <;>
  · refine ⟨_, rfl, ?_, ?_⟩
    · repeat rw [dictGet_dictSet_ne _ _ _ _ (by decide)]
      exact dictGet_dictSet_self _ _ _
    · repeat rw [dictGet_dictSet_ne _ _ _ _ (by decide)]
      rfl

theorem foldl_mstep_const (cache : List Dict) (names : List JVal) (acc : List JVal)
    (h : ∀ f ∈ cache, jvalMem (dictGetD f "name" .null) names = true) :
    cache.foldl (fun ts func => if !jvalMem (dictGetD func "name" .null) names then
      ts ++ [JVal.obj [("type", JVal.str "function"), ("function", .obj func)]]
      else ts) acc = acc := by
  induction cache generalizing acc with
  | nil => rfl
  | cons f rest ih =>
    rw [List.foldl_cons, if_neg (by rw [h f (List.mem_cons_self _ _)]; simp)]
    exact ih acc (fun g hg => h g (List.mem_cons_of_mem _ hg))

theorem flatName_mkFlatTool (f : Dict) :
    flatName (mkFlatTool f) = dictGetD f "name" .null := by
  simp [flatName, mkFlatTool, jGetD, jGet, dictGet]

theorem inject_pre_eval (f0 : Dict) (rest0 : List Dict) (d : Dict) (ts : List JVal)
    (htl : dictGet d "tools" = some (.arr ts))
    (hall : ∀ t ∈ ts, hasKeyJ t "name" = true) :
    create_response_inject_pre true (f0 :: rest0) d
      = dictSet d "tools" (.arr (ts ++
          ((f0 :: rest0).map mkFlatTool).filter
            (fun tool => !jvalMem (flatName tool) (ts.map flatName)))) := by
  simp only [create_response_inject_pre]
  rw [if_pos (by simp : (!(f0 :: rest0 : List Dict).isEmpty && true) = true)]
  have hts : dictGetD d "tools" (.arr []) = .arr ts := by rw [dictGetD, htl]; rfl
  rw [hts]
  simp only [jArr]
  rw [List.filter_eq_self.mpr hall]
  rfl

theorem inject_post_noop (f0 : Dict) (rest0 : List Dict) (cr0 : Dict) (T : List JVal)
    (hfun : dictGet cr0 "functions" = none)
    (htools : dictGet cr0 "tools" = some (.arr T))
    (hcov : ∀ f ∈ (f0 :: rest0), jvalMem (dictGetD f "name" .null)
      (T.filterMap postToolName) = true) :
    create_response_inject_post true (f0 :: rest0) cr0
      = dictPop (dictSet cr0 "tools" (.arr T)) "functions" := by
  simp only [create_response_inject_post]
  rw [if_pos (by simp : (!(f0 :: rest0 : List Dict).isEmpty && true) = true)]
  have hfunD : dictGetD cr0 "functions" (.arr []) = .arr [] := by
    rw [dictGetD, hfun]; rfl
  have hkey : hasKey cr0 "tools" = true := by rw [hasKey, htools]; rfl
  have htoolsD : dictGetD cr0 "tools" (.arr []) = .arr T := by
    rw [dictGetD, htools]; rfl
  rw [hfunD, if_pos hkey, htoolsD]
  simp only [jArr, List.foldl_nil]
  rw [foldl_mstep_const (f0 :: rest0) _ _ (fun f hf => hcov f hf)]

theorem C1_responses_side (cache : List Dict) (d : Dict) (mv : JVal) (ts : List JVal)
    (hm : dictGet d "model" = some mv)
    (htl : dictGet d "tools" = some (.arr ts))
    (hrn : ∀ t ∈ ts, ∃ s, jGet t "name" = some (.str s))
    (hrd : (ts.map flatName).Nodup)
    (hmn : ∀ f ∈ cache, ∃ s, dictGet f "name" = some (.str s))
    (hmd : (cache.map (fun f => dictGetD f "name" JVal.null)).Nodup) :
    ∃ cr added, create_response_outbound true cache d = .ok cr ∧
      toolsOf cr = ts.map flatToolToNested ++ added ∧
      (funcNames (ts.map flatToolToNested ++ added)).Nodup ∧
      ∀ t ∈ added, chatFuncName t ∉ funcNames (ts.map flatToolToNested) := by
  have hstr_ts : ∀ v ∈ ts.map flatName, ∃ s, v = JVal.str s := by
    intro v hv
    obtain ⟨t, ht, hte⟩ := List.mem_map.mp hv
    obtain ⟨s, hs⟩ := hrn t ht
    refine ⟨s, ?_⟩
    rw [← hte, flatName, jGetD, hs]
    rfl
  have hstr_cache : ∀ v ∈ cache.map (fun f => dictGetD f "name" JVal.null),
      ∃ s, v = JVal.str s := by
    intro v hv
    obtain ⟨f, hf, hfe⟩ := List.mem_map.mp hv
    obtain ⟨s, hs⟩ := hmn f hf
    refine ⟨s, ?_⟩
    rw [← hfe, dictGetD, hs]
    rfl
  have hcomp : chatFuncName ∘ flatToolToNested = flatName :=
    funext chatFuncName_flatNested
  have hfnames : ∀ L : List JVal, funcNames (L.map flatToolToNested) = L.map flatName := by
    intro L
    rw [funcNames, List.map_map, hcomp]
  cases cache with
  | nil =>
    obtain ⟨cr0, hc0, hto, hfu⟩ := convert_tools d mv ts hm htl
    refine ⟨finalizeToolChoice cr0, [], ?_, ?_, ?_, by simp⟩
    · rw [create_response_outbound, inject_pre_empty_cache, hc0]
      show Except.ok (finalizeToolChoice (create_response_inject_post true [] cr0)) = _
      rw [inject_post_empty_cache]
    · rw [List.append_nil, toolsOf, dictGetD, finalize_preserves _ _ (by decide), hto]
      rfl
    · rw [List.append_nil, hfnames]
      exact hrd
  | cons f0 rest0 =>
    have hall : ∀ t ∈ ts, hasKeyJ t "name" = true := by
      intro t ht
      obtain ⟨s, hs⟩ := hrn t ht
      rw [hasKeyJ, hs]
      rfl
    have hpre := inject_pre_eval f0 rest0 d ts htl hall
    have hd1m : dictGet (create_response_inject_pre true (f0 :: rest0) d) "model"
        = some mv := by
      rw [hpre, dictGet_dictSet_ne _ _ _ _ (by decide)]
      exact hm
    have hd1t : dictGet (create_response_inject_pre true (f0 :: rest0) d) "tools"
        = some (.arr (ts ++ ((f0 :: rest0).map mkFlatTool).filter
            (fun tool => !jvalMem (flatName tool) (ts.map flatName)))) := by
      rw [hpre]
      exact dictGet_dictSet_self _ _ _
    obtain ⟨cr0, hc0, hto, hfu⟩ := convert_tools _ mv _ hd1m hd1t
    set FF := ((f0 :: rest0).map mkFlatTool).filter
      (fun tool => !jvalMem (flatName tool) (ts.map flatName)) with hFF
    have hFFnames : FF.map flatName
        = ((f0 :: rest0).map (fun f => dictGetD f "name" JVal.null)).filter
            (fun v => !jvalMem v (ts.map flatName)) := by
      rw [hFF, List.filter_map, List.map_map,
        show flatName ∘ mkFlatTool = (fun f => dictGetD f "name" JVal.null) from
          funext flatName_mkFlatTool, List.filter_map]
      rfl
    have hFFstr : ∀ v ∈ FF.map flatName, ∃ u, v = JVal.str u := by
      intro v hv
      rw [hFFnames] at hv
      exact hstr_cache v (List.mem_filter.mp hv).1
    have hnames0 : ((ts ++ FF).map flatToolToNested).filterMap postToolName
        = (ts ++ FF).map flatName := by
      rw [List.filterMap_map,
        show postToolName ∘ flatToolToNested = some ∘ flatName from
          funext postToolName_flatNested, List.filterMap_eq_map]
    have hcov : ∀ f ∈ (f0 :: rest0), jvalMem (dictGetD f "name" JVal.null)
        (((ts ++ FF).map flatToolToNested).filterMap postToolName) = true := by
      intro f hf
      obtain ⟨s, hs⟩ := hmn f hf
      have hnm : dictGetD f "name" JVal.null = JVal.str s := by
        rw [dictGetD, hs]
        rfl
      rw [hnames0, List.map_append, jvalMem_append]
      by_cases hb : jvalMem (dictGetD f "name" JVal.null) (ts.map flatName) = true
      · rw [hb]
        simp
      · have hb2 : jvalMem (flatName (mkFlatTool f)) (ts.map flatName) = false := by
          rw [flatName_mkFlatTool]
          exact Bool.eq_false_iff.mpr (fun hh => hb hh)
        have hmm : mkFlatTool f ∈ FF := by
          rw [hFF]
          refine List.mem_filter.mpr ⟨List.mem_map.mpr ⟨f, hf, rfl⟩, ?_⟩
          rw [hb2]
          rfl
        have hmem2 : JVal.str s ∈ FF.map flatName := by
          refine List.mem_map.mpr ⟨mkFlatTool f, hmm, ?_⟩
          rw [flatName_mkFlatTool, hnm]
        have hjm : jvalMem (JVal.str s) (FF.map flatName) = true :=
          (jvalMem_str s _ hFFstr).mpr hmem2
        rw [hnm, hjm]
        simp
    have hpost := inject_post_noop f0 rest0 cr0 ((ts ++ FF).map flatToolToNested)
      hfu hto hcov
    refine ⟨finalizeToolChoice (dictPop (dictSet cr0 "tools"
        (.arr ((ts ++ FF).map flatToolToNested))) "functions"),
      FF.map flatToolToNested, ?_, ?_, ?_, ?_⟩
    · rw [create_response_outbound, hc0]
      show Except.ok (finalizeToolChoice
        (create_response_inject_post true (f0 :: rest0) cr0)) = _
      rw [hpost]
    · rw [toolsOf, dictGetD, finalize_preserves _ _ (by decide),
        dictGet_dictPop_ne _ _ _ (by decide), dictGet_dictSet_self]
      show (ts ++ FF).map flatToolToNested = _
      exact List.map_append _ _ _
    · rw [funcNames, List.map_append, List.map_map, List.map_map, hcomp, hFFnames]
      exact (merged_names_ok ((f0 :: rest0).map (fun f => dictGetD f "name" JVal.null))
        (ts.map flatName) hstr_ts hstr_cache hrd hmd).1
    · intro t ht hmem
      obtain ⟨t0, ht0, hte⟩ := List.mem_map.mp ht
      have hcf : chatFuncName t = flatName t0 := by
        rw [← hte]
        exact chatFuncName_flatNested t0
      have h1 : flatName t0 ∈ FF.map flatName := List.mem_map.mpr ⟨t0, ht0, rfl⟩
      rw [hFFnames] at h1
      have hmem2 : flatName t0 ∈ ts.map flatName := by
        rw [← hcf]
        rw [hfnames] at hmem
        rw [hcf]
        rw [hcf] at hmem
        exact hmem
      exact (merged_names_ok ((f0 :: rest0).map (fun f => dictGetD f "name" JVal.null))
        (ts.map flatName) hstr_ts hstr_cache hrd hmd).2 _ h1 hmem2

/-- C1 counterexample: the code never deduplicates the client's own tool
list.  A /v1/chat/completions request declaring two tools with the same
function name, merged with a one-entry registry cache, is sent to the
backend with two entries named "a" — the claimed no-duplicates invariant
fails. -/
theorem C1_counterexample :
    funcNames (toolsOf (handle_chat_completions_inject true
      [[("name", JVal.str "m1")]]
      [("tools", JVal.arr
        [JVal.obj [("type", JVal.str "function"),
           ("function", JVal.obj [("name", JVal.str "a")])],
         JVal.obj [("type", JVal.str "function"),
           ("function", JVal.obj [("name", JVal.str "a")])]])]))
      = [JVal.str "a", JVal.str "a", JVal.str "m1"] ∧
    ¬ (funcNames (toolsOf (handle_chat_completions_inject true
      [[("name", JVal.str "m1")]]
      [("tools", JVal.arr
        [JVal.obj [("type", JVal.str "function"),
           ("function", JVal.obj [("name", JVal.str "a")])],
         JVal.obj [("type", JVal.str "function"),
           ("function", JVal.obj [("name", JVal.str "a")])]])]))).Nodup := by
  have heq : funcNames (toolsOf (handle_chat_completions_inject true
      [[("name", JVal.str "m1")]]
      [("tools", JVal.arr
        [JVal.obj [("type", JVal.str "function"),
           ("function", JVal.obj [("name", JVal.str "a")])],
         JVal.obj [("type", JVal.str "function"),
           ("function", JVal.obj [("name", JVal.str "a")])]])]))
      = [JVal.str "a", JVal.str "a", JVal.str "m1"] := by
    simp [handle_chat_completions_inject, toolsOf, funcNames, chatFuncName,
      dictGetD, dictGet, dictSet, jGetD, jGet, jArr, jvalMem, jEq]
  refine ⟨heq, fun h => ?_⟩
  rw [heq] at h
  exact (List.nodup_cons.mp h).1 (List.mem_cons_self _ _)

/-- C1 (amended): assuming the client-declared tool names are distinct
strings and the registry-cached names are distinct strings, the merged
tool list of either endpoint keeps the client's entries first and
unchanged, contains no two entries with the same function name, and every
registry-injected entry carries a name no client entry has — a colliding
registry entry is dropped.  (Without the distinctness assumptions the code
forwards duplicates, see the counterexample.) -/
theorem C1_client_precedence (cache : List Dict) (dChat dResp : Dict)
    (mv : JVal) (ts : List JVal)
    (hcn : ∀ t ∈ toolsOf dChat, ∃ s, chatFuncName t = .str s)
    (hcd : (funcNames (toolsOf dChat)).Nodup)
    (hmn : ∀ f ∈ cache, ∃ s, dictGet f "name" = some (.str s))
    (hmd : (cache.map (fun f => dictGetD f "name" JVal.null)).Nodup)
    (hm : dictGet dResp "model" = some mv)
    (htl : dictGet dResp "tools" = some (.arr ts))
    (hrn : ∀ t ∈ ts, ∃ s, jGet t "name" = some (.str s))
    (hrd : (ts.map flatName).Nodup) :
    (∃ added, toolsOf (handle_chat_completions_inject true cache dChat)
        = toolsOf dChat ++ added ∧
      (funcNames (toolsOf dChat ++ added)).Nodup ∧
      ∀ t ∈ added, chatFuncName t ∉ funcNames (toolsOf dChat)) ∧
    (∃ cr added, create_response_outbound true cache dResp = .ok cr ∧
      toolsOf cr = ts.map flatToolToNested ++ added ∧
      (funcNames (ts.map flatToolToNested ++ added)).Nodup ∧
      ∀ t ∈ added, chatFuncName t ∉ funcNames (ts.map flatToolToNested)) := by
  have hmn2 : ∀ f ∈ cache, ∃ s, dictGetD f "name" JVal.null = JVal.str s := by
    intro f hf
    obtain ⟨s, hs⟩ := hmn f hf
    refine ⟨s, ?_⟩
    rw [dictGetD, hs]
    rfl
  exact ⟨C1_chat_side cache dChat hcn hcd hmn2 hmd,
         C1_responses_side cache dResp mv ts hm htl hrn hrd hmn hmd⟩

/-- Witness for C1: one client tool per endpoint, one cached registry
tool with a distinct name. -/
theorem C1_witness :
    (∃ added, toolsOf (handle_chat_completions_inject true
        [[("name", JVal.str "m1"), ("parameters", JVal.obj [])]]
        [("tools", JVal.arr [JVal.obj [("type", JVal.str "function"),
          ("function", JVal.obj [("name", JVal.str "a")])]])])
        = toolsOf [("tools", JVal.arr [JVal.obj [("type", JVal.str "function"),
            ("function", JVal.obj [("name", JVal.str "a")])]])] ++ added ∧
      (funcNames (toolsOf [("tools", JVal.arr [JVal.obj [("type", JVal.str "function"),
          ("function", JVal.obj [("name", JVal.str "a")])]])] ++ added)).Nodup ∧
      ∀ t ∈ added, chatFuncName t ∉ funcNames (toolsOf
        [("tools", JVal.arr [JVal.obj [("type", JVal.str "function"),
          ("function", JVal.obj [("name", JVal.str "a")])]])])) ∧
    (∃ cr added, create_response_outbound true
        [[("name", JVal.str "m1"), ("parameters", JVal.obj [])]]
        [("model", JVal.str "M"), ("tools", JVal.arr
          [JVal.obj [("name", JVal.str "b"), ("parameters", JVal.obj [])]])]
        = .ok cr ∧
      toolsOf cr = [JVal.obj [("name", JVal.str "b"),
          ("parameters", JVal.obj [])]].map flatToolToNested ++ added ∧
      (funcNames ([JVal.obj [("name", JVal.str "b"),
          ("parameters", JVal.obj [])]].map flatToolToNested ++ added)).Nodup ∧
      ∀ t ∈ added, chatFuncName t ∉ funcNames
        ([JVal.obj [("name", JVal.str "b"),
          ("parameters", JVal.obj [])]].map flatToolToNested)) :=
  C1_client_precedence
    [[("name", JVal.str "m1"), ("parameters", JVal.obj [])]]
    [("tools", JVal.arr [JVal.obj [("type", JVal.str "function"),
      ("function", JVal.obj [("name", JVal.str "a")])]])]
    [("model", JVal.str "M"), ("tools", JVal.arr
      [JVal.obj [("name", JVal.str "b"), ("parameters", JVal.obj [])]])]
    (JVal.str "M")
    [JVal.obj [("name", JVal.str "b"), ("parameters", JVal.obj [])]]
    (by
      intro t ht
      rw [show toolsOf [("tools", JVal.arr [JVal.obj [("type", JVal.str "function"),
        ("function", JVal.obj [("name", JVal.str "a")])]])]
        = [JVal.obj [("type", JVal.str "function"),
            ("function", JVal.obj [("name", JVal.str "a")])]] from rfl] at ht
      rw [List.mem_singleton] at ht
      subst ht
      exact ⟨"a", rfl⟩)
    (by
      rw [show funcNames (toolsOf [("tools", JVal.arr
        [JVal.obj [("type", JVal.str "function"),
          ("function", JVal.obj [("name", JVal.str "a")])]])])
        = [JVal.str "a"] from rfl]
      exact List.nodup_singleton _)
    (by
      intro f hf
      rw [List.mem_singleton] at hf
      subst hf
      exact ⟨"m1", rfl⟩)
    (by
      rw [show ([[("name", JVal.str "m1"), ("parameters", JVal.obj [])]] :
          List Dict).map (fun f => dictGetD f "name" JVal.null)
        = [JVal.str "m1"] from rfl]
      exact List.nodup_singleton _)
    rfl
    rfl
    (by
      intro t ht
      rw [List.mem_singleton] at ht
      subst ht
      exact ⟨"b", rfl⟩)
    (by
      rw [show ([JVal.obj [("name", JVal.str "b"),
          ("parameters", JVal.obj [])]]).map flatName = [JVal.str "b"] from rfl]
      exact List.nodup_singleton _)
